import Mathlib

/-!
# Greenlight API: admission control, credential issuance and graceful shutdown

A shallow embedding of the correctness-critical parts of the Greenlight API server
(`cmd/api/middleware.go`, `cmd/api/routes.go`, `cmd/api/server.go`,
`internal/data/tokens.go`) together with theorems about them.

Conventions
* `time.Time` is a reading of the monotonic clock in nanoseconds (`Time := Int`);
  `time.Duration` is a number of nanoseconds.
* A Go `string` is a Lean `String`; Go's `len(s)` is the number of bytes of the
  UTF-8 encoding, `String.utf8ByteSize`.
* A Go `map[string]*client` is an association list with at most one entry per key,
  maintained by the three map operations the code uses (lookup, store, delete).
* Effects (taking the mutex, writing a response, calling the next handler, logging)
  are recorded as explicit event lists.
-/

namespace Greenlight

/-! ## Time -/

/-- A clock reading, in nanoseconds. -/
abbrev Time := Int

/-- Go: `time.Second`, in nanoseconds. -/
def second : Int := 1000000000

/-- Go: `time.Minute`, in nanoseconds. -/
def minute : Int := 60 * second

/-! ## Configuration (`cmd/api/main.go`) -/

/-- The `limiter` block of `config`: the `-limiter-rps`, `-limiter-burst` and
`-limiter-enabled` flags. -/
structure LimiterConfig where
  rps : ℚ
  burst : Int
  enabled : Bool

/-- The flag defaults of `main`: `rps = 2`, `burst = 4`, `enabled = true`. -/
def defaultLimiterConfig : LimiterConfig :=
  { rps := 2, burst := 4, enabled := true }

/-! ## The token bucket (`golang.org/x/time/rate`) -/

/-- Modelled from the spec: the token bucket behind `rate.Limiter`, a dependency
whose code is not part of the repository sources. Fields follow the spec's
`ClientBucket`: the current fractional allowance `tokens`, the `refillRate` in tokens
per second, the cap `burst` and `lastRefillAt`. Amounts are exact rationals. -/
structure Limiter where
  refillRate : ℚ
  burst : Int
  tokens : ℚ
  lastRefillAt : Time

/-- Modelled from the spec: `rate.NewLimiter(rate.Limit(rps), burst)`; "a record is
created lazily on first sight, fully refilled". -/
def NewLimiter (rps : ℚ) (burst : Int) (now : Time) : Limiter :=
  { refillRate := rps, burst := burst, tokens := burst, lastRefillAt := now }

/-- Modelled from the spec: the allowance after the refill at `now`: "compute elapsed
time since `lastRefillAt`, add `elapsed × ratePerSecond` tokens capped at `burst`". -/
def Limiter.refilled (l : Limiter) (now : Time) : ℚ :=
  min (l.burst : ℚ) (l.tokens + ((now - l.lastRefillAt : Int) : ℚ) / (second : ℚ) * l.refillRate)

/-- Modelled from the spec: `Limiter.Allow()` at clock reading `now`: after the
refill, "if `tokens ≥ 1`, subtract 1, record timestamp, return true; else return
false", keeping the refill already applied. -/
def Limiter.Allow (l : Limiter) (now : Time) : Limiter × Bool :=
  let tokens := l.refilled now
  if 1 ≤ tokens then
    ({ l with tokens := tokens - 1, lastRefillAt := now }, true)
  else
    ({ l with tokens := tokens, lastRefillAt := now }, false)

/-! ## The rate-limit middleware (`cmd/api/middleware.go`, `rateLimit`) -/

/-- The local `client` struct of `rateLimit`: a limiter and the last-seen time. -/
structure Client where
  limiter : Limiter
  lastSeen : Time

/-- The `clients` map of one `rateLimit` closure, `map[string]*client`. -/
abbrev Clients := List (String × Client)

/-- Go: `clients[ip]` with the comma-ok form: the entry stored under `ip`, if any. -/
def Clients.find (m : Clients) (ip : String) : Option Client :=
  match m with
  | [] => none
  | (k, c) :: rest => if k = ip then some c else Clients.find rest ip

/-- Go: `clients[ip] = c`: replaces the entry under `ip`, or adds one. -/
def Clients.store (m : Clients) (ip : String) (c : Client) : Clients :=
  match m with
  | [] => [(ip, c)]
  | (k, d) :: rest => if k = ip then (k, c) :: rest else (k, d) :: Clients.store rest ip c

/-- Go: `delete(clients, ip)`. -/
def Clients.delete (m : Clients) (ip : String) : Clients :=
  m.filter (fun e => decide (e.1 ≠ ip))

/-- The number of live records the map holds for `ip`. -/
def Clients.records (m : Clients) (ip : String) : Nat :=
  (m.filter (fun e => decide (e.1 = ip))).length

/-- What a run of the middleware does that is visible outside the map. -/
inductive Event where
  | lock
  | unlock
  | rateLimitExceededResponse
  | next
  deriving DecidableEq, Repr

/-- The handler returned by `rateLimit(next)`, for a request whose client key
(`realip.FromRequest(r)`) is `ip`, served at clock reading `now`: the new contents of
`clients` and the events in the order the code performs them. With the limiter
enabled the code works on the one record `clients[ip]` under the mutex: it creates
the record when the key is not found, sets `lastSeen`, and asks the limiter. -/
def rateLimitHandler (cfg : LimiterConfig) (ip : String) (now : Time)
    (clients : Clients) : Clients × List Event :=
  if cfg.enabled then
    -- if _, found := clients[ip]; !found { clients[ip] = &client{limiter: rate.NewLimiter(...)} }
    let c0 : Client :=
      match clients.find ip with
      | some c => c
      | none => { limiter := NewLimiter cfg.rps cfg.burst now, lastSeen := 0 }
    -- clients[ip].lastSeen = time.Now()
    let c1 : Client := { c0 with lastSeen := now }
    -- clients[ip].limiter.Allow()
    let r := c1.limiter.Allow now
    let clients1 := clients.store ip { c1 with limiter := r.1 }
    if r.2 then
      (clients1, [Event.lock, Event.unlock, Event.next])
    else
      (clients1, [Event.lock, Event.unlock, Event.rateLimitExceededResponse])
  else
    (clients, [Event.next])

/-- Whether the request was admitted: the next handler was invoked. -/
def admitted (r : Clients × List Event) : Bool :=
  decide (Event.next ∈ r.2)

/-- The record the handler works on: `clients[ip]` when the key is found, a new
record with a new limiter otherwise. -/
def effective (cfg : LimiterConfig) (ip : String) (now : Time) (clients : Clients) : Client :=
  match clients.find ip with
  | some c => c
  | none => { limiter := NewLimiter cfg.rps cfg.burst now, lastSeen := 0 }

/-- Serves consecutive requests of one client key, all at the same clock reading;
returns the final map and the verdicts in order. -/
def serveSameInstant (cfg : LimiterConfig) (ip : String) (now : Time) :
    Nat → Clients → Clients × List Bool
  | 0, clients => (clients, [])
  | n + 1, clients =>
    let r := rateLimitHandler cfg ip now clients
    let rest := serveSameInstant cfg ip now n r.1
    (rest.1, admitted r :: rest.2)

/-- Serves consecutive requests, each with its client key and clock reading; returns
the final map and the events of every request. -/
def serveAll (cfg : LimiterConfig) : List (String × Time) → Clients → Clients × List (List Event)
  | [], clients => (clients, [])
  | (ip, now) :: reqs, clients =>
    let r := rateLimitHandler cfg ip now clients
    let rest := serveAll cfg reqs r.1
    (rest.1, r.2 :: rest.2)

/-- The body of the goroutine launched by `rateLimit`, run at clock reading `now`:
under the mutex, ranges over `clients` and deletes every entry whose `lastSeen` is
more than three minutes old. -/
def cleanup (now : Time) (clients : Clients) : Clients × List Event :=
  (clients.foldl
      (fun m e => if now - e.2.lastSeen > 3 * minute then m.delete e.1 else m) clients,
    [Event.lock, Event.unlock])

/-- The state one call of `rateLimit(next)` sets up: the `clients` map captured by the
closure, and whether the goroutine it launched still has its body to run. The body
has no loop: it runs once and the goroutine ends. -/
structure RateLimiter where
  clients : Clients
  cleanupPending : Bool

/-- The state right after `rateLimit(next)` returned: an empty map, the goroutine
launched. -/
def rateLimit : RateLimiter :=
  { clients := [], cleanupPending := true }

/-- What can happen to one rate limiter: a request is served, or the scheduler runs
the goroutine body. -/
inductive Action where
  | request (ip : String) (now : Time)
  | cleanup (now : Time)

/-- One step of a rate limiter; the goroutine body is enabled only while pending. -/
def RateLimiter.step (cfg : LimiterConfig) (s : RateLimiter) : Action → Option RateLimiter
  | Action.request ip now => some { s with clients := (rateLimitHandler cfg ip now s.clients).1 }
  | Action.cleanup now =>
    if s.cleanupPending then
      some { clients := (cleanup now s.clients).1, cleanupPending := false }
    else none

/-- Runs a sequence of steps; `none` if one of them is not enabled. -/
def RateLimiter.run (cfg : LimiterConfig) (s : RateLimiter) : List Action → Option RateLimiter
  | [] => some s
  | a :: as =>
    match s.step cfg a with
    | some s1 => RateLimiter.run cfg s1 as
    | none => none

/-- The verdict a rate limiter gives a request in its current state. -/
def RateLimiter.admits (cfg : LimiterConfig) (s : RateLimiter) (ip : String) (now : Time) : Bool :=
  admitted (rateLimitHandler cfg ip now s.clients)

/-! ## The route table (`cmd/api/routes.go`) -/

/-- The middleware of `cmd/api/middleware.go` that `routes` wraps around handlers. -/
inductive Middleware where
  | enableCORS
  | rateLimit
  | authenticate
  | requireActivatedUser
  deriving DecidableEq, Repr

/-- One registration of `routes`: method, path, the middleware wrapped around the
handler from the outermost inwards, and the handler. -/
structure Route where
  method : String
  path : String
  middleware : List Middleware
  handler : String
  deriving DecidableEq, Repr

/-- The registrations of `routes()`, in source order. -/
def routes : List Route :=
  [ { method := "GET", path := "/v1/healthcheck",
      middleware := [Middleware.enableCORS, Middleware.rateLimit, Middleware.authenticate],
      handler := "healthcheckHandler" },
    { method := "GET", path := "/v1/movies",
      middleware := [Middleware.enableCORS, Middleware.rateLimit, Middleware.authenticate,
        Middleware.requireActivatedUser],
      handler := "listMoviesHandler" },
    { method := "POST", path := "/v1/movies",
      middleware := [Middleware.enableCORS, Middleware.rateLimit, Middleware.authenticate,
        Middleware.requireActivatedUser],
      handler := "createMovieHandler" },
    { method := "GET", path := "/v1/movies/:id",
      middleware := [Middleware.enableCORS, Middleware.rateLimit, Middleware.authenticate,
        Middleware.requireActivatedUser],
      handler := "showMovieHandler" },
    { method := "PATCH", path := "/v1/movies/:id",
      middleware := [Middleware.enableCORS, Middleware.rateLimit, Middleware.authenticate,
        Middleware.requireActivatedUser],
      handler := "updateMovieHandler" },
    { method := "DELETE", path := "/v1/movies/:id",
      middleware := [Middleware.enableCORS, Middleware.rateLimit, Middleware.authenticate,
        Middleware.requireActivatedUser],
      handler := "deleteMovieHandler" },
    { method := "POST", path := "/v1/users",
      middleware := [Middleware.enableCORS, Middleware.authenticate],
      handler := "registerUserHandler" },
    { method := "PUT", path := "/v1/users/activated",
      middleware := [Middleware.enableCORS, Middleware.authenticate],
      handler := "activateUserHandler" },
    { method := "POST", path := "/v1/tokens/authentication",
      middleware := [Middleware.enableCORS, Middleware.authenticate],
      handler := "createAuthenticationTokenHandler" },
    { method := "GET", path := "/debug/vars",
      middleware := [],
      handler := "expvar.Handler" } ]

/-- The rate limiters of the running application, one entry per registration of
`routes`: every `a.rateLimit(...)` in `routes()` is a call of its own and sets up a
map, a mutex and a goroutine of its own; a route registered without `rateLimit` has
none. -/
abbrev App := List (Option RateLimiter)

/-- The application right after `routes()` built the router. -/
def App.init : App :=
  routes.map (fun r => if Middleware.rateLimit ∈ r.middleware then some rateLimit else none)

/-- What can happen to the application's rate limiters: a request arrives on the
route registered at position `route`, or the goroutine of that route's limiter runs. -/
inductive AppAction where
  | request (route : Nat) (ip : String) (now : Time)
  | cleanup (route : Nat) (now : Time)

/-- One step of the application: the action goes to the limiter of its route, when the
route has one; a request on a route without a limiter changes nothing. -/
def App.step (cfg : LimiterConfig) (a : App) : AppAction → Option App
  | AppAction.request route ip now =>
    match a[route]? with
    | some (some rl) =>
      (rl.step cfg (Action.request ip now)).map (fun rl1 => a.set route (some rl1))
    | some none => some a
    | none => none
  | AppAction.cleanup route now =>
    match a[route]? with
    | some (some rl) =>
      (rl.step cfg (Action.cleanup now)).map (fun rl1 => a.set route (some rl1))
    | _ => none

/-- Runs a sequence of application steps. -/
def App.run (cfg : LimiterConfig) (a : App) : List AppAction → Option App
  | [] => some a
  | x :: xs =>
    match a.step cfg x with
    | some a1 => App.run cfg a1 xs
    | none => none

/-- The states the application can be in. -/
def App.Reachable (cfg : LimiterConfig) (a : App) : Prop :=
  ∃ xs, App.run cfg App.init xs = some a

/-- The verdict of the rate limiting on the route at position `route`, in the current
state; a route without a limiter admits. -/
def App.admits (cfg : LimiterConfig) (a : App) (route : Nat) (ip : String) (now : Time) : Bool :=
  match a[route]? with
  | some (some rl) => rl.admits cfg ip now
  | _ => true

/-- The number of live bucket records the application holds for `ip`, over all its
rate limiters. -/
def App.records (a : App) (ip : String) : Nat :=
  (a.map (fun o => match o with
    | some rl => rl.clients.records ip
    | none => 0)).sum

/-- A configuration with a slow refill, one token per thousand seconds, and the
default burst. -/
def slowLimiterConfig : LimiterConfig :=
  { rps := 1 / 1000, burst := 4, enabled := true }

/-- At most one record per key in the map of one rate limiter. -/
def RateLimiter.Single (s : RateLimiter) : Prop :=
  ∀ ip, s.clients.records ip ≤ 1

/-- Every rate limiter of the application holds at most one record per key. -/
def App.Single (a : App) : Prop :=
  ∀ (route : Nat) (rl : RateLimiter), a[route]? = some (some rl) → rl.Single

/-- Five requests of one client at one instant: four on the route at position 0
(`GET /v1/healthcheck`), then one on the route at position 1 (`GET /v1/movies`). -/
def crossRouteRequests : List AppAction :=
  [AppAction.request 0 "192.0.2.1" 0, AppAction.request 0 "192.0.2.1" 0,
   AppAction.request 0 "192.0.2.1" 0, AppAction.request 0 "192.0.2.1" 0,
   AppAction.request 1 "192.0.2.1" 0]

/-! ## Unpadded base-32 (`encoding/base32`) -/

/-- Go: the alphabet of `base32.StdEncoding` (RFC 4648). -/
def encodeStd : List Char :=
  "ABCDEFGHIJKLMNOPQRSTUVWXYZ234567".data

/-- The character of a 5-bit value. -/
def base32Char (v : Nat) : Char :=
  encodeStd.getD (v % 32) 'A'

/-- The eight characters of one 5-byte quantum: its 40 bits read as eight 5-bit
values, most significant first. -/
def encodeQuantum (b0 b1 b2 b3 b4 : UInt8) : List Char :=
  let n := b0.toNat * 2 ^ 32 + b1.toNat * 2 ^ 24 + b2.toNat * 2 ^ 16 + b3.toNat * 2 ^ 8 + b4.toNat
  [base32Char (n / 2 ^ 35), base32Char (n / 2 ^ 30), base32Char (n / 2 ^ 25),
   base32Char (n / 2 ^ 20), base32Char (n / 2 ^ 15), base32Char (n / 2 ^ 10),
   base32Char (n / 2 ^ 5), base32Char n]

/-- Go: `base32.StdEncoding.WithPadding(base32.NoPadding).EncodeToString(src)`, the
characters of the result. Full quanta of five bytes give eight characters each; a
last quantum of 1, 2, 3 or 4 bytes is filled with zero bits and gives its first 2, 4,
5 or 7 characters, with no padding character after them. -/
def EncodeToString : List UInt8 → List Char
  | b0 :: b1 :: b2 :: b3 :: b4 :: rest => encodeQuantum b0 b1 b2 b3 b4 ++ EncodeToString rest
  | [b0, b1, b2, b3] => (encodeQuantum b0 b1 b2 b3 0).take 7
  | [b0, b1, b2] => (encodeQuantum b0 b1 b2 0 0).take 5
  | [b0, b1] => (encodeQuantum b0 b1 0 0 0).take 4
  | [b0] => (encodeQuantum b0 0 0 0 0).take 2
  | [] => []

/-- Go: `enc.EncodedLen(n)` without padding. -/
def EncodedLen (n : Nat) : Nat :=
  n / 5 * 8 + (n % 5 * 8 + 4) / 5

/-! ## SHA-256 (`crypto/sha256`) -/

/-- The round constants of SHA-256 (FIPS 180-4, section 4.2.2). -/
def sha256K : List Nat :=
  [0x428a2f98, 0x71374491, 0xb5c0fbcf, 0xe9b5dba5, 0x3956c25b, 0x59f111f1, 0x923f82a4, 0xab1c5ed5,
   0xd807aa98, 0x12835b01, 0x243185be, 0x550c7dc3, 0x72be5d74, 0x80deb1fe, 0x9bdc06a7, 0xc19bf174,
   0xe49b69c1, 0xefbe4786, 0x0fc19dc6, 0x240ca1cc, 0x2de92c6f, 0x4a7484aa, 0x5cb0a9dc, 0x76f988da,
   0x983e5152, 0xa831c66d, 0xb00327c8, 0xbf597fc7, 0xc6e00bf3, 0xd5a79147, 0x06ca6351, 0x14292967,
   0x27b70a85, 0x2e1b2138, 0x4d2c6dfc, 0x53380d13, 0x650a7354, 0x766a0abb, 0x81c2c92e, 0x92722c85,
   0xa2bfe8a1, 0xa81a664b, 0xc24b8b70, 0xc76c51a3, 0xd192e819, 0xd6990624, 0xf40e3585, 0x106aa070,
   0x19a4c116, 0x1e376c08, 0x2748774c, 0x34b0bcb5, 0x391c0cb3, 0x4ed8aa4a, 0x5b9cca4f, 0x682e6ff3,
   0x748f82ee, 0x78a5636f, 0x84c87814, 0x8cc70208, 0x90befffa, 0xa4506ceb, 0xbef9a3f7, 0xc67178f2]

/-- The eight 32-bit words of a SHA-256 chaining value. -/
structure Digest where
  h0 : Nat
  h1 : Nat
  h2 : Nat
  h3 : Nat
  h4 : Nat
  h5 : Nat
  h6 : Nat
  h7 : Nat
  deriving DecidableEq, Repr

/-- The initial chaining value of SHA-256. -/
def sha256Init : Digest :=
  { h0 := 0x6a09e667, h1 := 0xbb67ae85, h2 := 0x3c6ef372, h3 := 0xa54ff53a,
    h4 := 0x510e527f, h5 := 0x9b05688c, h6 := 0x1f83d9ab, h7 := 0x5be0cd19 }

/-- Addition of 32-bit words. -/
def add32 (a b : Nat) : Nat :=
  (a + b) % 2 ^ 32

/-- Rotation of a 32-bit word to the right. -/
def rotr (x n : Nat) : Nat :=
  ((x >>> n) ||| (x <<< (32 - n))) % 2 ^ 32

/-- SHA-256 `Ch`. -/
def sha256Ch (x y z : Nat) : Nat :=
  (x &&& y) ^^^ ((x ^^^ 0xffffffff) &&& z)

/-- SHA-256 `Maj`. -/
def sha256Maj (x y z : Nat) : Nat :=
  (x &&& y) ^^^ (x &&& z) ^^^ (y &&& z)

/-- SHA-256 big sigma 0. -/
def bigSigma0 (x : Nat) : Nat :=
  rotr x 2 ^^^ rotr x 13 ^^^ rotr x 22

/-- SHA-256 big sigma 1. -/
def bigSigma1 (x : Nat) : Nat :=
  rotr x 6 ^^^ rotr x 11 ^^^ rotr x 25

/-- SHA-256 small sigma 0. -/
def smallSigma0 (x : Nat) : Nat :=
  rotr x 7 ^^^ rotr x 18 ^^^ (x >>> 3)

/-- SHA-256 small sigma 1. -/
def smallSigma1 (x : Nat) : Nat :=
  rotr x 17 ^^^ rotr x 19 ^^^ (x >>> 10)

/-- The message with the SHA-256 padding: a `0x80` byte, zero bytes up to 56 modulo
64, and the bit length as eight big-endian bytes. -/
def sha256Pad (msg : List UInt8) : List UInt8 :=
  let bits := msg.length * 8
  msg ++ [0x80] ++ List.replicate ((64 - (msg.length + 9) % 64) % 64) 0
    ++ (List.range 8).map (fun i => UInt8.ofNat (bits / 2 ^ (8 * (7 - i)) % 256))

/-- The big-endian 32-bit words of a block of bytes. -/
def wordsOf : List UInt8 → List Nat
  | a :: b :: c :: d :: rest =>
    (a.toNat * 2 ^ 24 + b.toNat * 2 ^ 16 + c.toNat * 2 ^ 8 + d.toNat) :: wordsOf rest
  | _ => []

/-- The message schedule: the 16 words of the block extended by `n` more words. -/
def schedule (w : List Nat) : Nat → List Nat
  | 0 => w
  | n + 1 =>
    let s := schedule w n
    let t := s.length
    s ++ [add32 (add32 (smallSigma1 (s.getD (t - 2) 0)) (s.getD (t - 7) 0))
            (add32 (smallSigma0 (s.getD (t - 15) 0)) (s.getD (t - 16) 0))]

/-- One round of the compression function with round constant `k` and schedule word
`w`. -/
def sha256Round (s : Digest) (k w : Nat) : Digest :=
  let t1 := add32 (add32 (add32 s.h7 (bigSigma1 s.h4)) (add32 (sha256Ch s.h4 s.h5 s.h6) k)) w
  let t2 := add32 (bigSigma0 s.h0) (sha256Maj s.h0 s.h1 s.h2)
  { h0 := add32 t1 t2, h1 := s.h0, h2 := s.h1, h3 := s.h2,
    h4 := add32 s.h3 t1, h5 := s.h4, h6 := s.h5, h7 := s.h6 }

/-- The compression of one 64-byte block into the chaining value. -/
def sha256Block (s : Digest) (block : List UInt8) : Digest :=
  let w := schedule (wordsOf block) 48
  let r := (List.zip sha256K w).foldl (fun acc kw => sha256Round acc kw.1 kw.2) s
  { h0 := add32 s.h0 r.h0, h1 := add32 s.h1 r.h1, h2 := add32 s.h2 r.h2, h3 := add32 s.h3 r.h3,
    h4 := add32 s.h4 r.h4, h5 := add32 s.h5 r.h5, h6 := add32 s.h6 r.h6, h7 := add32 s.h7 r.h7 }

/-- The compression of the first `n` 64-byte blocks of `data`. -/
def sha256Blocks (s : Digest) (data : List UInt8) : Nat → Digest
  | 0 => s
  | n + 1 => sha256Blocks (sha256Block s (data.take 64)) (data.drop 64) n

/-- The four big-endian bytes of a 32-bit word. -/
def bytesOfWord (w : Nat) : List UInt8 :=
  [UInt8.ofNat (w / 2 ^ 24 % 256), UInt8.ofNat (w / 2 ^ 16 % 256),
   UInt8.ofNat (w / 2 ^ 8 % 256), UInt8.ofNat (w % 256)]

/-- Go: `sha256.Sum256(data)`, the 32 bytes of the digest. -/
def Sum256 (data : List UInt8) : List UInt8 :=
  let padded := sha256Pad data
  let d := sha256Blocks sha256Init padded (padded.length / 64)
  bytesOfWord d.h0 ++ bytesOfWord d.h1 ++ bytesOfWord d.h2 ++ bytesOfWord d.h3 ++
    bytesOfWord d.h4 ++ bytesOfWord d.h5 ++ bytesOfWord d.h6 ++ bytesOfWord d.h7

/-- Go: `[]byte(s)`, the bytes of a string. -/
def bytesOf (s : String) : List UInt8 :=
  s.data.flatMap String.utf8EncodeChar

/-! ## Errors -/

/-- A non-nil Go `error` value: the two sentinel errors the code can meet by name,
or any other error. -/
inductive Error where
  | errServerClosed
  | deadlineExceeded
  | other (msg : String)
  deriving DecidableEq, Repr

/-! ## The validator (`internal/validator`) -/

/-- Modelled from the spec: the `validator.Validator` of `internal/validator`, which
is not among the sources at hand: a collection of error messages by key. -/
structure Validator where
  Errors : List (String × String)
  deriving DecidableEq, Repr

/-- Modelled from the spec: `validator.New()`, a validator without errors. -/
def Validator.New : Validator :=
  { Errors := [] }

/-- Modelled from the spec: `v.Valid()`, true when no error has been recorded. -/
def Validator.Valid (v : Validator) : Bool :=
  v.Errors.isEmpty

/-- Whether an error is recorded under `key`. -/
def Validator.hasError (v : Validator) (key : String) : Bool :=
  v.Errors.any (fun e => e.1 == key)

/-- Modelled from the spec: `v.AddError(key, message)`, which records the message
unless the key already has one. -/
def Validator.AddError (v : Validator) (key message : String) : Validator :=
  if v.hasError key then v else { Errors := v.Errors ++ [(key, message)] }

/-- Modelled from the spec: `v.Check(ok, key, message)`, which records the message
when `ok` is false. -/
def Validator.Check (v : Validator) (ok : Bool) (key message : String) : Validator :=
  if ok then v else v.AddError key message

/-! ## Tokens (`internal/data/tokens.go`) -/

/-- Go: `ScopeActivation`. -/
def ScopeActivation : String := "activation"

/-- Go: `ScopeAuthentication`. -/
def ScopeAuthentication : String := "authentication"

/-- Go: `type Token struct`. -/
structure Token where
  Plaintext : String
  Hash : List UInt8
  UserID : Int
  Expiry : Time
  Scope : String
  deriving DecidableEq, Repr

/-- The collaborators of the data layer: the clock, the operating system's random
source (the outcome of the call number `k` of `rand.Read`: an error, or the bytes it
delivered) and the database (the outcome of `ExecContext` for the insertion of a
token). -/
structure Env where
  now : Time
  rand : Nat → Except Error (List UInt8)
  exec : Token → Option Error

/-- What the data layer has done to its collaborators so far: the number of calls of
`rand.Read`, and the tokens handed to `Insert`, in order. -/
structure Sys where
  randReads : Nat
  inserts : List Token
  deriving DecidableEq, Repr

/-- Go: `randomBytes := make([]byte, 16)` after `rand.Read(randomBytes)` delivered
`delivered`: sixteen bytes, zero where nothing was written. -/
def fill16 (delivered : List UInt8) : List UInt8 :=
  (delivered ++ List.replicate 16 0).take 16

/-- Go: `generateToken(userID, ttl, scope)`: the pair `(*Token, error)` it returns and
the effects done. It reads the random source once; on an error it returns
`nil, err`; otherwise the plaintext is the unpadded base-32 encoding of the sixteen
random bytes and the hash is the SHA-256 of the bytes of the plaintext. -/
def generateToken (env : Env) (userID : Int) (ttl : Int) (scope : String) (s : Sys) :
    (Option Token × Option Error) × Sys :=
  let s1 : Sys := { s with randReads := s.randReads + 1 }
  match env.rand s.randReads with
  | Except.error err => ((none, some err), s1)
  | Except.ok delivered =>
    let randomBytes := fill16 delivered
    let plaintext := String.mk (EncodeToString randomBytes)
    let hash := Sum256 (bytesOf plaintext)
    ((some { Plaintext := plaintext, Hash := hash, UserID := userID,
             Expiry := env.now + ttl, Scope := scope }, none), s1)

/-- Go: `ValidateTokenPlainText(v, tokenPlainText)`; `len` counts bytes. -/
def ValidateTokenPlainText (v : Validator) (tokenPlainText : String) : Validator :=
  let v1 := v.Check (tokenPlainText != "") "token" "must be provided"
  v1.Check (tokenPlainText.utf8ByteSize == 26) "token" "must be 26 bytes long"

/-- Go: `TokenModel.Insert(token)`: one `INSERT` through `ExecContext`, whose error
is returned. -/
def TokenModel.Insert (env : Env) (token : Token) (s : Sys) : Option Error × Sys :=
  (env.exec token, { s with inserts := s.inserts ++ [token] })

/-- Go: `TokenModel.New(userID, ttl, scope)`: generates a token; on an error returns
`nil, err` at once; otherwise inserts the token and returns it with the error of the
insertion. -/
def TokenModel.New (env : Env) (userID : Int) (ttl : Int) (scope : String) (s : Sys) :
    (Option Token × Option Error) × Sys :=
  match generateToken env userID ttl scope s with
  | ((_, some err), s1) => ((none, some err), s1)
  | ((some token, none), s1) =>
    let r := TokenModel.Insert env token s1
    ((some token, r.1), r.2)
  | ((none, none), s1) => ((none, none), s1)

/-- A candidate of thirteen two-byte characters. -/
def thirteenTwoByteChars : String := "ééééééééééééé"

/-- A random source that fails at every call. -/
def failingEnv : Env :=
  { now := 0, rand := fun _ => Except.error (Error.other "rand: unavailable"), exec := fun _ => none }

/-- A random source that delivers sixteen bytes `0xff` at every call. -/
def onesEnv : Env :=
  { now := 0, rand := fun _ => Except.ok (List.replicate 16 255), exec := fun _ => none }

/-- The token `generateToken` issues for user 7 with a ttl of 86400 and the
authentication scope when the random source delivers sixteen bytes `0xff`. -/
def onesToken : Token :=
  { Plaintext := String.mk (EncodeToString (List.replicate 16 255)),
    Hash := Sum256 (bytesOf (String.mk (EncodeToString (List.replicate 16 255)))),
    UserID := 7, Expiry := 86400, Scope := ScopeAuthentication }

/-! ## Graceful shutdown (`cmd/api/server.go`, `serve`)

`serve` runs two threads: its own, and the goroutine it starts, which waits for a
signal, shuts the server down and waits for the background tasks. They meet on the
unbuffered channel `shutdownError`. The model is the interleaving of their steps;
the environment chooses when the signal arrives, what `srv.Shutdown` and
`srv.ListenAndServe` return and when `a.wg.Wait` returns. -/

/-- What a run of `serve` does, in the order it happens. -/
inductive ServeEvent where
  | logStartingServer
  | listenReturned (err : Error)
  | logCaughtSignal
  | shutdownCalled
  | shutdownReturned (err : Option Error)
  | received (err : Option Error)
  | logCompletingTasks
  | waitCalled
  | waitReturned
  | logStoppedServer
  deriving DecidableEq, Repr

/-- Where the thread of `serve` stands: before the log of line 57; inside
`srv.ListenAndServe()` (line 64); blocked on `<-shutdownError` (line 72); before the
log of line 77; returned with its result (`none` is `nil`). -/
inductive MainPC where
  | starting
  | listening
  | receiving
  | stopping
  | returned (result : Option Error)
  deriving DecidableEq, Repr

/-- Where the goroutine of lines 27 to 55 stands: blocked on `<-quite` (line 34);
inside `srv.Shutdown(ctx)` (line 45); blocked on `shutdownError <- err` (line 47);
before the log of line 49; inside `a.wg.Wait()` (line 52); blocked on
`shutdownError <- nil` (line 53); at its end. -/
inductive BackgroundPC where
  | awaitSignal
  | inShutdown
  | sendErr (err : Error)
  | completing
  | inWait
  | sendNil
  | finished
  deriving DecidableEq, Repr

/-- The state of a run of `serve`. -/
structure ServeState where
  main : MainPC
  background : BackgroundPC
  trace : List ServeEvent
  deriving DecidableEq, Repr

/-- The state when `serve` has started the goroutine. -/
def ServeState.init : ServeState :=
  { main := MainPC.starting, background := BackgroundPC.awaitSignal, trace := [] }

/-- The steps of a run. `listenReturn err`: `srv.ListenAndServe()` returns `err`,
which by the contract of `net/http` is never `nil`. `signal`: a `SIGINT` or `SIGTERM`
is delivered, the goroutine logs it and calls `srv.Shutdown` with the 20-second
deadline. `shutdownReturn err`: `srv.Shutdown` returns `err`, `nil` or an error such
as the expiry of the deadline. `handoff`: the send and the receive on
`shutdownError` meet. `beginWait`: the goroutine logs and calls `a.wg.Wait()`.
`waitReturn`: `a.wg.Wait()` returns. `stopped`: `serve` logs "stopped server" and
returns `nil`. -/
inductive ServeStep where
  | logStarting
  | listenReturn (err : Error)
  | signal
  | shutdownReturn (err : Option Error)
  | handoff
  | beginWait
  | waitReturn
  | stopped
  deriving DecidableEq, Repr

/-- One step of a run of `serve`; `none` when the step is not enabled. -/
def serveStep (s : ServeState) : ServeStep → Option ServeState
  | ServeStep.logStarting =>
    match s.main with
    | MainPC.starting =>
      some { s with main := MainPC.listening, trace := s.trace ++ [ServeEvent.logStartingServer] }
    | _ => none
  | ServeStep.listenReturn err =>
    match s.main with
    | MainPC.listening =>
      -- if !errors.Is(err, http.ErrServerClosed) { return err }
      some { s with
        main := if err = Error.errServerClosed then MainPC.receiving
                else MainPC.returned (some err),
        trace := s.trace ++ [ServeEvent.listenReturned err] }
    | _ => none
  | ServeStep.signal =>
    match s.background with
    | BackgroundPC.awaitSignal =>
      some { s with background := BackgroundPC.inShutdown,
                    trace := s.trace ++ [ServeEvent.logCaughtSignal, ServeEvent.shutdownCalled] }
    | _ => none
  | ServeStep.shutdownReturn err =>
    match s.background with
    | BackgroundPC.inShutdown =>
      -- if err != nil { shutdownError <- err }
      some { s with
        background := (match err with
          | some e => BackgroundPC.sendErr e
          | none => BackgroundPC.completing),
        trace := s.trace ++ [ServeEvent.shutdownReturned err] }
    | _ => none
  | ServeStep.handoff =>
    match s.main, s.background with
    | MainPC.receiving, BackgroundPC.sendErr e =>
      -- err = <-shutdownError; if err != nil { return err }
      some { main := MainPC.returned (some e), background := BackgroundPC.completing,
             trace := s.trace ++ [ServeEvent.received (some e)] }
    | MainPC.receiving, BackgroundPC.sendNil =>
      some { main := MainPC.stopping, background := BackgroundPC.finished,
             trace := s.trace ++ [ServeEvent.received none] }
    | _, _ => none
  | ServeStep.beginWait =>
    match s.background with
    | BackgroundPC.completing =>
      some { s with background := BackgroundPC.inWait,
                    trace := s.trace ++ [ServeEvent.logCompletingTasks, ServeEvent.waitCalled] }
    | _ => none
  | ServeStep.waitReturn =>
    match s.background with
    | BackgroundPC.inWait =>
      some { s with background := BackgroundPC.sendNil,
                    trace := s.trace ++ [ServeEvent.waitReturned] }
    | _ => none
  | ServeStep.stopped =>
    match s.main with
    | MainPC.stopping =>
      some { s with main := MainPC.returned none,
                    trace := s.trace ++ [ServeEvent.logStoppedServer] }
    | _ => none

/-- Runs a sequence of steps; `none` if one of them is not enabled. -/
def serveRun (s : ServeState) : List ServeStep → Option ServeState
  | [] => some s
  | x :: xs =>
    match serveStep s x with
    | some s1 => serveRun s1 xs
    | none => none

/-- The states a run of `serve` can be in. -/
def ServeReachable (s : ServeState) : Prop :=
  ∃ xs, serveRun ServeState.init xs = some s

/-- Every occurrence of `b` in the trace comes after an occurrence of `a`. -/
def Precedes (a b : ServeEvent) (trace : List ServeEvent) : Prop :=
  ∀ pre post, trace = pre ++ b :: post → a ∈ pre

/-- A graceful run: the signal arrives, `Shutdown` returns `nil`, the background
tasks end, `serve` logs "stopped server" and returns `nil`. -/
def gracefulRun : List ServeStep :=
  [ServeStep.logStarting, ServeStep.signal, ServeStep.listenReturn Error.errServerClosed,
   ServeStep.shutdownReturn none, ServeStep.beginWait, ServeStep.waitReturn,
   ServeStep.handoff, ServeStep.stopped]

/-- A run in which `Shutdown` exceeds its deadline, up to the point where it has
reported the error. -/
def timedOutRun : List ServeStep :=
  [ServeStep.logStarting, ServeStep.signal, ServeStep.listenReturn Error.errServerClosed,
   ServeStep.shutdownReturn (some Error.deadlineExceeded)]

/-- The state at the end of `gracefulRun`. -/
def gracefulFinal : ServeState :=
  { main := MainPC.returned none, background := BackgroundPC.finished,
    trace := [ServeEvent.logStartingServer, ServeEvent.logCaughtSignal, ServeEvent.shutdownCalled,
      ServeEvent.listenReturned Error.errServerClosed, ServeEvent.shutdownReturned none,
      ServeEvent.logCompletingTasks, ServeEvent.waitCalled, ServeEvent.waitReturned,
      ServeEvent.received none, ServeEvent.logStoppedServer] }

/-- The state at the end of `timedOutRun`. -/
def timedOutState : ServeState :=
  { main := MainPC.receiving, background := BackgroundPC.sendErr Error.deadlineExceeded,
    trace := [ServeEvent.logStartingServer, ServeEvent.logCaughtSignal, ServeEvent.shutdownCalled,
      ServeEvent.listenReturned Error.errServerClosed,
      ServeEvent.shutdownReturned (some Error.deadlineExceeded)] }

/-- No value has been received from `shutdownError` yet. -/
def NoReceive (trace : List ServeEvent) : Prop :=
  ∀ x, ServeEvent.received x ∉ trace

/-- Every result `srv.Shutdown` has reported in the trace is `r`. -/
def ShutdownOnly (r : Option Error) (trace : List ServeEvent) : Prop :=
  ∀ x, ServeEvent.shutdownReturned x ∈ trace → x = r

/-- What the position of the goroutine says about the trace and about `serve`. -/
def backgroundInv (main : MainPC) (trace : List ServeEvent) : BackgroundPC → Prop
  | BackgroundPC.awaitSignal =>
    (∀ x, ServeEvent.shutdownReturned x ∉ trace) ∧ NoReceive trace
  | BackgroundPC.inShutdown =>
    ServeEvent.shutdownCalled ∈ trace ∧ (∀ x, ServeEvent.shutdownReturned x ∉ trace) ∧
      NoReceive trace
  | BackgroundPC.sendErr e =>
    ServeEvent.shutdownCalled ∈ trace ∧ ServeEvent.shutdownReturned (some e) ∈ trace ∧
      ShutdownOnly (some e) trace ∧ NoReceive trace
  | BackgroundPC.completing =>
    ServeEvent.shutdownCalled ∈ trace ∧
      ((ServeEvent.shutdownReturned none ∈ trace ∧ ShutdownOnly none trace ∧ NoReceive trace) ∨
       (∃ e, ServeEvent.shutdownReturned (some e) ∈ trace ∧ ShutdownOnly (some e) trace ∧
          main = MainPC.returned (some e)))
  | BackgroundPC.inWait =>
    ServeEvent.shutdownCalled ∈ trace ∧ ServeEvent.waitCalled ∈ trace ∧
      ((ServeEvent.shutdownReturned none ∈ trace ∧ ShutdownOnly none trace ∧ NoReceive trace) ∨
       (∃ e, ServeEvent.shutdownReturned (some e) ∈ trace ∧ ShutdownOnly (some e) trace ∧
          main = MainPC.returned (some e)))
  | BackgroundPC.sendNil =>
    ServeEvent.shutdownCalled ∈ trace ∧ ServeEvent.waitCalled ∈ trace ∧
      ServeEvent.waitReturned ∈ trace ∧
      ((ServeEvent.shutdownReturned none ∈ trace ∧ ShutdownOnly none trace ∧ NoReceive trace) ∨
       (∃ e, ServeEvent.shutdownReturned (some e) ∈ trace ∧ ShutdownOnly (some e) trace ∧
          main = MainPC.returned (some e)))
  | BackgroundPC.finished =>
    ServeEvent.shutdownCalled ∈ trace ∧ ServeEvent.waitCalled ∈ trace ∧
      ServeEvent.waitReturned ∈ trace ∧ ServeEvent.shutdownReturned none ∈ trace ∧
      ShutdownOnly none trace ∧ (main = MainPC.stopping ∨ main = MainPC.returned none)

/-- What the position of `serve` says about the trace and about the goroutine. -/
def mainInv (background : BackgroundPC) (trace : List ServeEvent) : MainPC → Prop
  | MainPC.starting =>
    (∀ e, ServeEvent.listenReturned e ∉ trace) ∧ NoReceive trace ∧
      ServeEvent.logStoppedServer ∉ trace
  | MainPC.listening =>
    (∀ e, ServeEvent.listenReturned e ∉ trace) ∧ NoReceive trace ∧
      ServeEvent.logStoppedServer ∉ trace
  | MainPC.receiving =>
    (∀ e, ServeEvent.listenReturned e ∈ trace → e = Error.errServerClosed) ∧ NoReceive trace ∧
      ServeEvent.logStoppedServer ∉ trace
  | MainPC.stopping =>
    background = BackgroundPC.finished ∧ ServeEvent.logStoppedServer ∉ trace
  | MainPC.returned none =>
    background = BackgroundPC.finished ∧ ServeEvent.logStoppedServer ∈ trace
  | MainPC.returned (some e) =>
    ServeEvent.logStoppedServer ∉ trace ∧
      ((ServeEvent.shutdownReturned (some e) ∈ trace ∧
          (∀ e1, ServeEvent.listenReturned e1 ∈ trace → e1 = Error.errServerClosed)) ∨
       (NoReceive trace ∧ ServeEvent.listenReturned e ∈ trace ∧ e ≠ Error.errServerClosed))

/-- The order of the events of shutdown within a trace. -/
def orderInv (trace : List ServeEvent) : Prop :=
  Precedes ServeEvent.shutdownCalled ServeEvent.waitCalled trace ∧
  (∀ pre post, trace = pre ++ ServeEvent.waitCalled :: post →
    ∃ r, ServeEvent.shutdownReturned r ∈ pre) ∧
  Precedes ServeEvent.waitCalled ServeEvent.waitReturned trace ∧
  Precedes ServeEvent.waitReturned ServeEvent.logStoppedServer trace ∧
  Precedes (ServeEvent.shutdownReturned none) ServeEvent.logStoppedServer trace

/-- The invariant of the runs of `serve`. -/
def ServeInv (s : ServeState) : Prop :=
  backgroundInv s.main s.trace s.background ∧ mainInv s.background s.trace s.main ∧
    orderInv s.trace

/-! ## Requests through the middleware of a route (`cmd/api/routes.go`) -/

/-- What a request enters on its way through a registration: a middleware, or the
handler. -/
inductive Stage where
  | middleware (m : Middleware)
  | handler (name : String)
  deriving DecidableEq, Repr

/-- The stages a request enters, in order, on a chain `m1(m2(...(handler)))`: each
middleware is entered and, when it calls `next.ServeHTTP` (`callsNext`), the rest of
the chain follows; when it answers by itself the request goes no further. -/
def visitChain (callsNext : Middleware → Bool) (handler : String) : List Middleware → List Stage
  | [] => [Stage.handler handler]
  | m :: ms =>
    Stage.middleware m :: (if callsNext m then visitChain callsNext handler ms else [])

/-- The stages a request enters on a route. -/
def Route.visit (r : Route) (callsNext : Middleware → Bool) : List Stage :=
  visitChain callsNext r.handler r.middleware

/-- Whether the handler of a route is one of the application's: all but the
`expvar.Handler()` of `/debug/vars`. -/
def Route.isApplicationHandler (r : Route) : Bool :=
  r.handler != "expvar.Handler"

/-- The registration `POST /v1/users` of `routes()`. -/
def registerUserRoute : Route :=
  { method := "POST", path := "/v1/users",
    middleware := [Middleware.enableCORS, Middleware.authenticate],
    handler := "registerUserHandler" }

/-! ## The authenticate middleware (`cmd/api/middleware.go`, `authenticate`) -/

/-- Modelled from the spec: `data.User` of `internal/data`, which is not among the
sources at hand; the owning principal of a token, with its identifier and whether
the account is activated. -/
structure User where
  ID : Int
  Activated : Bool
  deriving DecidableEq, Repr

/-- Modelled from the spec: the sentinel `data.ErrRecordNotFound` of `internal/data`,
which is not among the sources at hand; `errors.Is(err, data.ErrRecordNotFound)` is
equality with it. -/
def ErrRecordNotFound : Error :=
  Error.other "record not found"

/-- The pieces of a list of characters between the occurrences of `sep`. -/
def splitChars (sep : Char) : List Char → List (List Char)
  | [] => [[]]
  | c :: cs =>
    if c = sep then [] :: splitChars sep cs
    else
      match splitChars sep cs with
      | [] => [[c]]
      | p :: ps => (c :: p) :: ps

/-- Go: `strings.Split(s, sep)` for a separator of one character: the substrings
between the separators, one more than there are separators. -/
def Split (s : String) (sep : Char) : List String :=
  (splitChars sep s.data).map String.mk

/-- What a run of `authenticate` does, in order. `contextSetUser none` sets
`data.AnonymousUser`. -/
inductive AuthEvent where
  | addVaryAuthorization
  | contextSetUser (user : Option User)
  | getForToken (scope token : String)
  | invalidAuthenticationTokenResponse
  | serverErrorResponse (err : Error)
  | next
  deriving DecidableEq, Repr

/-- The handler returned by `authenticate(next)`, for a request whose `Authorization`
header is `authorizationHeader`; `getForToken` is `a.models.Users.GetForToken`, the
lookup in the database, which returns a user or an error. -/
def authenticate (getForToken : String → String → Except Error User)
    (authorizationHeader : String) : List AuthEvent :=
  AuthEvent.addVaryAuthorization ::
  if authorizationHeader = "" then
    [AuthEvent.contextSetUser none, AuthEvent.next]
  else
    let headerParts := Split authorizationHeader ' '
    if headerParts.length ≠ 2 ∨ headerParts.getD 0 "" ≠ "Bearer" then
      [AuthEvent.invalidAuthenticationTokenResponse]
    else
      let token := headerParts.getD 1 ""
      let v := ValidateTokenPlainText Validator.New token
      if !v.Valid then
        [AuthEvent.invalidAuthenticationTokenResponse]
      else
        match getForToken ScopeAuthentication token with
        | Except.error err =>
          if err = ErrRecordNotFound then
            [AuthEvent.getForToken ScopeAuthentication token,
             AuthEvent.invalidAuthenticationTokenResponse]
          else
            [AuthEvent.getForToken ScopeAuthentication token, AuthEvent.serverErrorResponse err]
        | Except.ok user =>
          [AuthEvent.getForToken ScopeAuthentication token,
           AuthEvent.contextSetUser (some user), AuthEvent.next]

/-- A lookup that knows one token, that of user 7, fails with a database error on a
second one, and finds no record for any other. -/
def sampleLookup (_scope token : String) : Except Error User :=
  if token = "AAAAAAAAAAAAAAAAAAAAAAAAAA" then Except.ok { ID := 7, Activated := true }
  else if token = "BBBBBBBBBBBBBBBBBBBBBBBBBB" then Except.error (Error.other "connection refused")
  else Except.error ErrRecordNotFound

/-- A byte of the base-32 alphabet: one of `A` to `Z` (65 to 90) or `2` to `7` (50
to 55). The padding character `=` is 61. -/
def isBase32Byte (b : UInt8) : Bool :=
  (65 ≤ b.toNat && b.toNat ≤ 90) || (50 ≤ b.toNat && b.toNat ≤ 55)

/-! ## Histories of the application's rate limiters -/

/-- Whether a route is registered with `rateLimit` around its handler. -/
def Route.rateLimited (r : Route) : Bool :=
  decide (Middleware.rateLimit ∈ r.middleware)

/-- The verdicts of the requests of a run of the application, in order: for each
request, whether the rate limiting of its route admits it in the state it meets. -/
def appVerdicts (cfg : LimiterConfig) : App → List AppAction → List Bool
  | _, [] => []
  | a, AppAction.request route ip now :: xs =>
    a.admits cfg route ip now ::
      (match a.step cfg (AppAction.request route ip now) with
       | some a1 => appVerdicts cfg a1 xs
       | none => [])
  | a, AppAction.cleanup route now :: xs =>
    match a.step cfg (AppAction.cleanup route now) with
    | some a1 => appVerdicts cfg a1 xs
    | none => []

/-- Whether an action is a request of the key `ip` on the route at position `route`. -/
def AppAction.isRequestOn (route : Nat) (ip : String) : AppAction → Bool
  | AppAction.request r k _ => decide (r = route ∧ k = ip)
  | AppAction.cleanup _ _ => false

/-- Whether the key `ip` has been seen on the route at position `route` in the
history `xs`. -/
def seenOn (route : Nat) (ip : String) (xs : List AppAction) : Bool :=
  xs.any (AppAction.isRequestOn route ip)

/-- What a history says about a key on a route, given what held before it: the time
of its last request on the route, unless the key was never seen there or a sweep of
that route's limiter came more than three minutes after its last request and evicted
it. -/
def lastSeenAfter (start : Option Time) (route : Nat) (ip : String) :
    List AppAction → Option Time
  | [] => start
  | AppAction.request r k now :: xs =>
    lastSeenAfter (if r = route ∧ k = ip then some now else start) route ip xs
  | AppAction.cleanup r now :: xs =>
    lastSeenAfter
      (if r = route then
        (match start with
         | some seen => if now - seen > 3 * minute then none else some seen
         | none => none)
       else start) route ip xs

/-- The key `ip` has been seen on the route and not been evicted since, in the history
`xs` from the start of the application: the time it was last seen. -/
def lastSeenOn (route : Nat) (ip : String) (xs : List AppAction) : Option Time :=
  lastSeenAfter none route ip xs

/-- The state the application reaches by `crossRouteRequests` at the flag defaults. -/
def crossRouteState : App :=
  (App.run defaultLimiterConfig App.init crossRouteRequests).getD App.init

/-- Four requests of one client at one instant on the route at position 0
(`GET /v1/healthcheck`). -/
def healthcheckBurst : List AppAction :=
  [AppAction.request 0 "192.0.2.1" 0, AppAction.request 0 "192.0.2.1" 0,
   AppAction.request 0 "192.0.2.1" 0, AppAction.request 0 "192.0.2.1" 0]

/-- The state the application reaches by `healthcheckBurst` at the flag defaults. -/
def healthcheckBurstState : App :=
  (App.run defaultLimiterConfig App.init healthcheckBurst).getD App.init

/-- The registration `GET /v1/movies` of `routes()`, at position 1. -/
def listMoviesRoute : Route :=
  { method := "GET", path := "/v1/movies",
    middleware := [Middleware.enableCORS, Middleware.rateLimit, Middleware.authenticate,
      Middleware.requireActivatedUser],
    handler := "listMoviesHandler" }

/-- A history in which a client is seen on `GET /v1/healthcheck` at second 1, the
sweep of that route's limiter runs four minutes later and evicts it, and another
client is seen on `GET /v1/movies` at second 250. -/
def evictionHistory : List AppAction :=
  [AppAction.request 0 "192.0.2.1" second, AppAction.cleanup 0 (241 * second),
   AppAction.request 1 "192.0.2.7" (250 * second)]

/-- The state the application reaches by `evictionHistory` at the flag defaults. -/
def evictionState : App :=
  (App.run defaultLimiterConfig App.init evictionHistory).getD App.init

/-! # Theorems -/

/-! ## Admission control -/

theorem Clients.find_store_same (m : Clients) (ip : String) (c : Client) :
    (m.store ip c).find ip = some c := by
  induction m with
  | nil => simp [Clients.store, Clients.find]
  | cons e rest ih =>
    obtain ⟨k, d⟩ := e
    by_cases h : k = ip
    · simp [Clients.store, Clients.find, h]
    · simp [Clients.store, Clients.find, h, ih]

theorem Limiter.refilled_same_instant (l : Limiter) (now : Time) (k : Nat)
    (hlast : l.lastRefillAt = now) (htok : l.tokens = (k : ℚ)) (hk : (k : Int) ≤ l.burst) :
    l.refilled now = (k : ℚ) := by
  simp [Limiter.refilled, hlast, htok]
  exact_mod_cast hk

theorem Limiter.Allow_same_instant_succ (l : Limiter) (now : Time) (k : Nat)
    (hlast : l.lastRefillAt = now) (htok : l.tokens = ((k + 1 : Nat) : ℚ))
    (hk : ((k + 1 : Nat) : Int) ≤ l.burst) :
    l.Allow now = ({ l with tokens := (k : ℚ), lastRefillAt := now }, true) := by
  have h := Limiter.refilled_same_instant l now (k + 1) hlast htok hk
  simp [Limiter.Allow, h]

theorem Limiter.Allow_same_instant_zero (l : Limiter) (now : Time)
    (hlast : l.lastRefillAt = now) (htok : l.tokens = 0) (hk : 0 ≤ l.burst) :
    l.Allow now = ({ l with tokens := 0, lastRefillAt := now }, false) := by
  have h := Limiter.refilled_same_instant l now 0 hlast (by simpa using htok) (by simpa using hk)
  simp [Limiter.Allow, h]

theorem rateLimitHandler_enabled (cfg : LimiterConfig) (ip : String) (now : Time)
    (clients : Clients) (hen : cfg.enabled = true) :
    rateLimitHandler cfg ip now clients
      = (clients.store ip
          { limiter := ((effective cfg ip now clients).limiter.Allow now).1, lastSeen := now },
         if ((effective cfg ip now clients).limiter.Allow now).2 then
           [Event.lock, Event.unlock, Event.next]
         else [Event.lock, Event.unlock, Event.rateLimitExceededResponse]) := by
  unfold rateLimitHandler effective
  simp only [hen, if_true]
  split <;> rfl

theorem effective_store (cfg : LimiterConfig) (ip : String) (now : Time)
    (clients : Clients) (c : Client) :
    effective cfg ip now (clients.store ip c) = c := by
  simp [effective, Clients.find_store_same]

theorem serveSameInstant_verdicts (cfg : LimiterConfig) (ip : String) (now : Time)
    (hen : cfg.enabled = true) (n : Nat) :
    ∀ (k : Nat) (clients : Clients),
      (effective cfg ip now clients).limiter.tokens = (k : ℚ) →
      (effective cfg ip now clients).limiter.lastRefillAt = now →
      (k : Int) ≤ (effective cfg ip now clients).limiter.burst →
      (serveSameInstant cfg ip now n clients).2
        = List.replicate (min k n) true ++ List.replicate (n - k) false := by
  induction n with
  | zero => intro k clients _ _ _; simp [serveSameInstant]
  | succ n ih =>
    intro k clients htok hlast hburst
    cases k with
    | zero =>
      have hA := Limiter.Allow_same_instant_zero _ now hlast (by simpa using htok)
        (by simpa using hburst)
      have hstep := rateLimitHandler_enabled cfg ip now clients hen
      rw [hA] at hstep
      have := ih 0 (rateLimitHandler cfg ip now clients).1
        (by rw [hstep]; simp [effective_store])
        (by rw [hstep]; simp [effective_store])
        (by rw [hstep]; simpa [effective_store] using hburst)
      simp only [serveSameInstant, this]
      simp [hstep, admitted, List.replicate_succ]
    | succ k =>
      have hA := Limiter.Allow_same_instant_succ _ now k hlast htok hburst
      have hstep := rateLimitHandler_enabled cfg ip now clients hen
      rw [hA] at hstep
      have := ih k (rateLimitHandler cfg ip now clients).1
        (by rw [hstep]; simp [effective_store])
        (by rw [hstep]; simp [effective_store])
        (by rw [hstep]; simp only [effective_store]; push_cast at hburst ⊢; omega)
      simp only [serveSameInstant, this]
      simp [hstep, admitted, List.replicate_succ, Nat.succ_min_succ]

/-- One rate limiter, the closure of one call of `rateLimit`: with rate limiting
enabled and a burst `b ≥ 1`, for a client key its map does not hold yet, `b` admission
checks made at the same instant are all admitted and the next check at that instant is
denied. -/
theorem rateLimit_fresh_client_burst (cfg : LimiterConfig) (ip : String) (now : Time)
    (clients : Clients) (b : Nat) (hen : cfg.enabled = true) (hb : cfg.burst = (b : Int))
    (_hb1 : 1 ≤ b) (hfresh : clients.find ip = none) :
    (serveSameInstant cfg ip now (b + 1) clients).2 = List.replicate b true ++ [false] := by
  have := serveSameInstant_verdicts cfg ip now hen (b + 1) b clients
    (by simp [effective, hfresh, NewLimiter, hb])
    (by simp [effective, hfresh, NewLimiter])
    (by simp [effective, hfresh, NewLimiter, hb])
  simpa using this

/-- One rate limiter at the flag defaults `rps = 2`, `burst = 4`: four checks admitted,
the fifth denied. -/
theorem rateLimit_fresh_client_burst_witness :
    (serveSameInstant defaultLimiterConfig "192.0.2.1" 0 (4 + 1) []).2
      = List.replicate 4 true ++ [false] :=
  rateLimit_fresh_client_burst defaultLimiterConfig "192.0.2.1" 0 [] 4 rfl rfl (by decide) rfl

theorem rateLimitHandler_disabled (cfg : LimiterConfig) (ip : String) (now : Time)
    (clients : Clients) (hdis : cfg.enabled = false) :
    rateLimitHandler cfg ip now clients = (clients, [Event.next]) := by
  simp [rateLimitHandler, hdis]

/-- Claim C2: with the limiter disabled, whatever the configured rate and burst, every
one of any number of consecutive requests is admitted (the events of each request are
the call of the next handler and nothing else, so the mutex is never taken) and the
clients map is left as it was. -/
theorem rateLimit_disabled_no_mutation (cfg : LimiterConfig) (hdis : cfg.enabled = false)
    (reqs : List (String × Time)) (clients : Clients) :
    serveAll cfg reqs clients = (clients, reqs.map (fun _ => [Event.next])) := by
  induction reqs generalizing clients with
  | nil => rfl
  | cons r reqs ih =>
    obtain ⟨ip, now⟩ := r
    simp [serveAll, rateLimitHandler_disabled cfg ip now clients hdis, ih]

/-- Witness of C2: three requests against a disabled limiter of rate 0 and burst 0. -/
theorem rateLimit_disabled_no_mutation_witness :
    serveAll { rps := 0, burst := 0, enabled := false }
        [("192.0.2.1", 0), ("192.0.2.1", 0), ("192.0.2.7", 5)] []
      = ([], [[Event.next], [Event.next], [Event.next]]) :=
  rateLimit_disabled_no_mutation { rps := 0, burst := 0, enabled := false } rfl
    [("192.0.2.1", 0), ("192.0.2.1", 0), ("192.0.2.7", 5)] []

theorem Clients.find_store_other (m : Clients) (ip other : String) (c : Client)
    (h : other ≠ ip) : (m.store ip c).find other = m.find other := by
  induction m with
  | nil => simp [Clients.store, Clients.find, Ne.symm h]
  | cons e rest ih =>
    obtain ⟨k, d⟩ := e
    by_cases hk : k = ip
    · subst hk
      simp [Clients.store, Clients.find, Ne.symm h]
    · by_cases hko : k = other
      · subst hko
        simp [Clients.store, Clients.find, hk]
      · simp [Clients.store, Clients.find, hk, hko, ih]

theorem Clients.find_store_isSome (m : Clients) (ip other : String) (c : Client)
    (h : (m.find other).isSome) : ((m.store ip c).find other).isSome := by
  by_cases ho : other = ip
  · subst ho
    simp [Clients.find_store_same]
  · rw [Clients.find_store_other m ip other c ho]
    exact h

theorem rateLimitHandler_keeps (cfg : LimiterConfig) (ip other : String) (now : Time)
    (clients : Clients) (h : (clients.find other).isSome) :
    ((rateLimitHandler cfg ip now clients).1.find other).isSome := by
  cases hen : cfg.enabled with
  | false => simpa [rateLimitHandler_disabled cfg ip now clients hen] using h
  | true =>
    rw [rateLimitHandler_enabled cfg ip now clients hen]
    exact Clients.find_store_isSome _ _ _ _ h

/-- Once the goroutine body has run, it never runs again. -/
theorem RateLimiter.run_cleanup_done (cfg : LimiterConfig) (as : List Action) :
    ∀ (s s1 : RateLimiter), s.cleanupPending = false → RateLimiter.run cfg s as = some s1 →
      s1.cleanupPending = false ∧ ∀ now, s1.step cfg (Action.cleanup now) = none := by
  induction as with
  | nil =>
    intro s s1 hp hrun
    simp [RateLimiter.run] at hrun
    subst hrun
    exact ⟨hp, fun now => by simp [RateLimiter.step, hp]⟩
  | cons a as ih =>
    intro s s1 hp hrun
    cases a with
    | request ip now =>
      simp only [RateLimiter.run, RateLimiter.step] at hrun
      refine ih _ s1 ?_ hrun
      exact hp
    | cleanup now =>
      simp [RateLimiter.run, RateLimiter.step, hp] at hrun

/-- Once the goroutine body has run, no record ever leaves the map, however long its
client stays away. -/
theorem RateLimiter.run_keeps_records (cfg : LimiterConfig) (as : List Action) :
    ∀ (s s1 : RateLimiter), s.cleanupPending = false → RateLimiter.run cfg s as = some s1 →
      ∀ ip, (s.clients.find ip).isSome → (s1.clients.find ip).isSome := by
  induction as with
  | nil =>
    intro s s1 _ hrun ip h
    simp [RateLimiter.run] at hrun
    subst hrun
    exact h
  | cons a as ih =>
    intro s s1 hp hrun ip h
    cases a with
    | request ip1 now =>
      simp only [RateLimiter.run, RateLimiter.step] at hrun
      refine ih _ s1 ?_ hrun ip (rateLimitHandler_keeps cfg ip1 ip now s.clients h)
      exact hp
    | cleanup now =>
      simp [RateLimiter.run, RateLimiter.step, hp] at hrun

/-- Claim C3, the code at a failing input (rate 1/1000 per second, burst 4): the
goroutine body runs once, at start-up, on the empty map; a client then spends its
burst at second 1 and stays away. No later step of the limiter is a sweep; 200 seconds
on, past the three-minute threshold, its record is still in the map with the last-seen
time of second 1, and its next check is denied, where a first-seen key is admitted. -/
theorem cleanup_runs_once_keeps_idle_bucket :
    ∃ s : RateLimiter,
      RateLimiter.run slowLimiterConfig rateLimit
          [Action.cleanup 0, Action.request "192.0.2.1" second, Action.request "192.0.2.1" second,
           Action.request "192.0.2.1" second, Action.request "192.0.2.1" second] = some s ∧
      (∀ now, s.step slowLimiterConfig (Action.cleanup now) = none) ∧
      (s.clients.find "192.0.2.1").map (fun c => c.lastSeen) = some second ∧
      201 * second - second > 3 * minute ∧
      s.admits slowLimiterConfig "192.0.2.1" (201 * second) = false ∧
      s.admits slowLimiterConfig "192.0.2.7" (201 * second) = true := by
  refine ⟨_, rfl, ?_, ?_, ?_, ?_, ?_⟩
  · intro now
    rfl
  · decide!
  · decide
  · decide!
  · decide!

theorem Clients.records_store_other (m : Clients) (ip other : String) (c : Client)
    (h : other ≠ ip) : (m.store ip c).records other = m.records other := by
  induction m with
  | nil => simp [Clients.store, Clients.records, Ne.symm h]
  | cons e rest ih =>
    obtain ⟨k, d⟩ := e
    unfold Clients.records at ih ⊢
    by_cases hk : k = ip
    · subst hk
      simp [Clients.store, List.filter_cons, Ne.symm h]
    · by_cases hko : k = other
      · subst hko
        simp [Clients.store, hk, List.filter_cons, ih]
      · simp [Clients.store, hk, hko, List.filter_cons, ih]

theorem Clients.records_store_same (m : Clients) (ip : String) (c : Client)
    (h : m.records ip ≤ 1) : (m.store ip c).records ip = 1 := by
  induction m with
  | nil => simp [Clients.store, Clients.records]
  | cons e rest ih =>
    obtain ⟨k, d⟩ := e
    unfold Clients.records at ih h ⊢
    by_cases hk : k = ip
    · subst hk
      simp [Clients.store, List.filter_cons] at h ⊢
      simpa using h
    · simp [Clients.store, hk, List.filter_cons] at h ⊢
      simpa using ih h

theorem Clients.records_delete_le (m : Clients) (ip k : String) :
    (m.delete k).records ip ≤ m.records ip := by
  unfold Clients.records Clients.delete
  rw [List.filter_filter]
  refine List.Sublist.length_le (List.monotone_filter_right m ?_)
  intro e he
  simp only [Bool.and_eq_true] at he
  exact he.1

theorem cleanup_records_le (now : Time) (m : Clients) (ip : String) :
    (cleanup now m).1.records ip ≤ m.records ip := by
  unfold cleanup
  simp only
  suffices h : ∀ (l acc : Clients), acc.records ip ≤ m.records ip →
      (l.foldl (fun m e => if now - e.2.lastSeen > 3 * minute then m.delete e.1 else m) acc).records ip
        ≤ m.records ip from h m m (le_refl _)
  intro l
  induction l with
  | nil => intro acc hacc; simpa using hacc
  | cons e l ih =>
    intro acc hacc
    simp only [List.foldl_cons]
    apply ih
    split
    · exact le_trans (Clients.records_delete_le acc ip e.1) hacc
    · exact hacc

theorem rateLimitHandler_single (cfg : LimiterConfig) (ip : String) (now : Time)
    (clients : Clients) (h : ∀ k, clients.records k ≤ 1) :
    ∀ k, (rateLimitHandler cfg ip now clients).1.records k ≤ 1 := by
  intro k
  cases hen : cfg.enabled with
  | false => simpa [rateLimitHandler_disabled cfg ip now clients hen] using h k
  | true =>
    rw [rateLimitHandler_enabled cfg ip now clients hen]
    by_cases hk : k = ip
    · subst hk
      exact le_of_eq (Clients.records_store_same _ _ _ (h k))
    · simpa [Clients.records_store_other _ _ _ _ hk] using h k

theorem rateLimitHandler_seen (cfg : LimiterConfig) (ip : String) (now : Time)
    (clients : Clients) (hen : cfg.enabled = true) (h : ∀ k, clients.records k ≤ 1) :
    (rateLimitHandler cfg ip now clients).1.records ip = 1 := by
  rw [rateLimitHandler_enabled cfg ip now clients hen]
  exact Clients.records_store_same _ _ _ (h ip)

theorem App.step_single (cfg : LimiterConfig) (a a1 : App) (x : AppAction)
    (h : a.Single) (hstep : a.step cfg x = some a1) : a1.Single := by
  intro route rl hrl
  cases x with
  | request r ip now =>
    simp only [App.step] at hstep
    cases har : a[r]? with
    | none => simp [har] at hstep
    | some o =>
      cases o with
      | none =>
        simp [har] at hstep
        subst hstep
        exact h route rl hrl
      | some rl0 =>
        simp [har, RateLimiter.step] at hstep
        subst hstep
        by_cases hr : r = route
        · subst hr
          have hlt : r < a.length := by
            rcases List.getElem?_eq_some_iff.mp har with ⟨hlt, _⟩
            exact hlt
          rw [List.getElem?_set_self hlt] at hrl
          simp only [Option.some.injEq] at hrl
          subst hrl
          exact rateLimitHandler_single cfg ip now rl0.clients (h r rl0 har)
        · rw [List.getElem?_set_ne hr] at hrl
          exact h route rl hrl
  | cleanup r now =>
    simp only [App.step] at hstep
    cases har : a[r]? with
    | none => simp [har] at hstep
    | some o =>
      cases o with
      | none => simp [har] at hstep
      | some rl0 =>
        cases hp : rl0.cleanupPending with
        | false => simp [har, RateLimiter.step, hp] at hstep
        | true =>
          simp [har, RateLimiter.step, hp] at hstep
          subst hstep
          by_cases hr : r = route
          · subst hr
            have hlt : r < a.length := by
              rcases List.getElem?_eq_some_iff.mp har with ⟨hlt, _⟩
              exact hlt
            rw [List.getElem?_set_self hlt] at hrl
            simp only [Option.some.injEq] at hrl
            subst hrl
            intro k
            exact le_trans (cleanup_records_le now rl0.clients k) (h r rl0 har k)
          · rw [List.getElem?_set_ne hr] at hrl
            exact h route rl hrl

theorem App.run_single (cfg : LimiterConfig) (xs : List AppAction) :
    ∀ (a a1 : App), a.Single → App.run cfg a xs = some a1 → a1.Single := by
  induction xs with
  | nil =>
    intro a a1 h hrun
    simp [App.run] at hrun
    subst hrun
    exact h
  | cons x xs ih =>
    intro a a1 h hrun
    simp only [App.run] at hrun
    cases hs : a.step cfg x with
    | none => simp [hs] at hrun
    | some a2 =>
      simp only [hs] at hrun
      exact ih a2 a1 (App.step_single cfg a a2 x h hs) hrun

theorem App.init_single : App.init.Single := by
  intro route rl h
  have hmem : some rl ∈ App.init := List.getElem?_mem h
  have : rl = rateLimit := by
    simp [App.init, routes] at hmem
    exact hmem
  subst this
  intro ip
  simp [rateLimit, Clients.records]

theorem App.reachable_single (cfg : LimiterConfig) (a : App) (h : App.Reachable cfg a) :
    a.Single := by
  obtain ⟨xs, hxs⟩ := h
  exact App.run_single cfg xs App.init a App.init_single hxs

/-- Claim C4, counterexample: at the flag defaults, a client spends its burst of four
on `GET /v1/healthcheck` and then sends one request to `GET /v1/movies`, all at the
same instant. The state reached holds two live records for that one key, and the next
check of the key at that instant is denied on the first route and admitted on the
second: the two routes decide against different buckets. -/
theorem single_bucket_counterexample :
    ∃ a : App,
      App.run defaultLimiterConfig App.init crossRouteRequests = some a ∧
      App.Reachable defaultLimiterConfig a ∧
      a.records "192.0.2.1" = 2 ∧
      a.admits defaultLimiterConfig 0 "192.0.2.1" 0 = false ∧
      a.admits defaultLimiterConfig 1 "192.0.2.1" 0 = true := by
  refine ⟨_, rfl, ⟨crossRouteRequests, rfl⟩, ?_, ?_, ?_⟩
  · decide!
  · decide!
  · decide!

/-! ## Credential issuance -/

theorem encodeQuantum_length (b0 b1 b2 b3 b4 : UInt8) :
    (encodeQuantum b0 b1 b2 b3 b4).length = 8 := rfl

theorem EncodeToString_length (src : List UInt8) :
    (EncodeToString src).length = EncodedLen src.length := by
  induction src using EncodeToString.induct with
  | case1 b0 b1 b2 b3 b4 rest ih =>
    simp only [EncodeToString, List.length_append, encodeQuantum_length, ih, List.length_cons,
      EncodedLen]
    omega
  | case2 b0 b1 b2 b3 => simp [EncodeToString, encodeQuantum, EncodedLen]
  | case3 b0 b1 b2 => simp [EncodeToString, encodeQuantum, EncodedLen]
  | case4 b0 b1 => simp [EncodeToString, encodeQuantum, EncodedLen]
  | case5 b0 => simp [EncodeToString, encodeQuantum, EncodedLen]
  | case6 => rfl

/-- The encoder reproduces the test vectors of RFC 4648, section 10, without their
padding. -/
theorem EncodeToString_rfc4648_vectors :
    String.mk (EncodeToString (bytesOf "f")) = "MY" ∧
    String.mk (EncodeToString (bytesOf "fo")) = "MZXQ" ∧
    String.mk (EncodeToString (bytesOf "foo")) = "MZXW6" ∧
    String.mk (EncodeToString (bytesOf "foob")) = "MZXW6YQ" ∧
    String.mk (EncodeToString (bytesOf "fooba")) = "MZXW6YTB" ∧
    String.mk (EncodeToString (bytesOf "foobar")) = "MZXW6YTBOI" := by
  decide

/-- The digest reproduces the one-block test vector of FIPS 180-4 for "abc". -/
theorem Sum256_abc :
    Sum256 (bytesOf "abc") =
      [0xba, 0x78, 0x16, 0xbf, 0x8f, 0x01, 0xcf, 0xea, 0x41, 0x41, 0x40, 0xde, 0x5d, 0xae, 0x22, 0x23,
       0xb0, 0x03, 0x61, 0xa3, 0x96, 0x17, 0x7a, 0x9c, 0xb4, 0x10, 0xff, 0x61, 0xf2, 0x00, 0x15, 0xad] := by
  decide!

theorem fill16_length (delivered : List UInt8) : (fill16 delivered).length = 16 := by
  simp [fill16]

theorem fill16_of_length (delivered : List UInt8) (h : delivered.length = 16) :
    fill16 delivered = delivered := by
  unfold fill16
  rw [List.take_append_of_le_length (le_of_eq h.symm)]
  exact List.take_of_length_le (le_of_eq h)

theorem bytesOfWord_length (w : Nat) : (bytesOfWord w).length = 4 := rfl

theorem Sum256_length (data : List UInt8) : (Sum256 data).length = 32 := by
  simp [Sum256, bytesOfWord_length]

/-- Claim C5: for every user id, ttl and scope and every 16 bytes delivered by the
random source, `generateToken` returns a token and no error; its plaintext is the
unpadded base-32 encoding of the 16 bytes and has exactly 26 characters, and its hash
has exactly 32 bytes. -/
theorem generateToken_lengths (env : Env) (userID ttl : Int) (scope : String) (s : Sys)
    (delivered : List UInt8) (hread : env.rand s.randReads = Except.ok delivered)
    (hlen : delivered.length = 16) :
    ∃ t : Token, (generateToken env userID ttl scope s).1 = (some t, none) ∧
      t.Plaintext = String.mk (EncodeToString delivered) ∧
      t.Plaintext.length = 26 ∧ t.Hash.length = 32 := by
  have hgen : (generateToken env userID ttl scope s).1
      = (some { Plaintext := String.mk (EncodeToString (fill16 delivered)),
                Hash := Sum256 (bytesOf (String.mk (EncodeToString (fill16 delivered)))),
                UserID := userID, Expiry := env.now + ttl, Scope := scope }, none) := by
    simp only [generateToken, hread]
  refine ⟨_, hgen, ?_, ?_, ?_⟩
  · simp only [fill16_of_length delivered hlen]
  · simp only [String.length, EncodeToString_length, fill16_length]
    rfl
  · exact Sum256_length _

/-- Witness of C5: the random source delivers sixteen bytes `0xff`. -/
theorem generateToken_lengths_witness :
    ∃ t : Token, (generateToken onesEnv 7 86400 ScopeAuthentication ⟨0, []⟩).1 = (some t, none) ∧
      t.Plaintext = String.mk (EncodeToString (List.replicate 16 255)) ∧
      t.Plaintext.length = 26 ∧ t.Hash.length = 32 :=
  generateToken_lengths onesEnv 7 86400 ScopeAuthentication ⟨0, []⟩ (List.replicate 16 255)
    rfl rfl

theorem generateToken_token (env : Env) (userID ttl : Int) (scope : String) (s : Sys)
    (t : Token) (h : (generateToken env userID ttl scope s).1.1 = some t) :
    ∃ delivered, env.rand s.randReads = Except.ok delivered ∧
      t = { Plaintext := String.mk (EncodeToString (fill16 delivered)),
            Hash := Sum256 (bytesOf (String.mk (EncodeToString (fill16 delivered)))),
            UserID := userID, Expiry := env.now + ttl, Scope := scope } := by
  unfold generateToken at h
  cases hr : env.rand s.randReads with
  | error e => simp [hr] at h
  | ok delivered =>
    simp only [hr, Option.some.injEq] at h
    exact ⟨delivered, rfl, h.symm⟩

/-- Claim C6: for every token issued by `generateToken`, the hash is the SHA-256 digest
of the bytes of the plaintext, so deriving the hash again from the plaintext gives the
token's hash; the hash depends on nothing but the plaintext: two issued tokens with
the same plaintext have the same hash, whatever their users, scopes, lifetimes and
clocks. -/
theorem generateToken_hash_of_plaintext (env1 env2 : Env) (user1 user2 ttl1 ttl2 : Int)
    (scope1 scope2 : String) (s1 s2 : Sys) (t1 t2 : Token)
    (h1 : (generateToken env1 user1 ttl1 scope1 s1).1.1 = some t1)
    (h2 : (generateToken env2 user2 ttl2 scope2 s2).1.1 = some t2) :
    t1.Hash = Sum256 (bytesOf t1.Plaintext) ∧
    (t1.Plaintext = t2.Plaintext → t1.Hash = t2.Hash) := by
  obtain ⟨d1, _, rfl⟩ := generateToken_token env1 user1 ttl1 scope1 s1 t1 h1
  obtain ⟨d2, _, rfl⟩ := generateToken_token env2 user2 ttl2 scope2 s2 t2 h2
  refine ⟨rfl, ?_⟩
  intro hp
  simp only at hp ⊢
  rw [hp]

/-- Witness of C6: the token issued from sixteen bytes `0xff`, against itself. -/
theorem generateToken_hash_of_plaintext_witness :
    onesToken.Hash = Sum256 (bytesOf onesToken.Plaintext) ∧
    (onesToken.Plaintext = onesToken.Plaintext → onesToken.Hash = onesToken.Hash) :=
  generateToken_hash_of_plaintext onesEnv onesEnv 7 7 86400 86400 ScopeAuthentication
    ScopeAuthentication ⟨0, []⟩ ⟨0, []⟩ onesToken onesToken rfl rfl

theorem Validator.AddError_not_valid (v : Validator) (key message : String) :
    (v.AddError key message).Valid = false := by
  unfold Validator.AddError
  split
  · rename_i h
    cases hE : v.Errors with
    | nil => simp [Validator.hasError, hE] at h
    | cons e es => simp [Validator.Valid, hE]
  · simp [Validator.Valid]

theorem Validator.AddError_hasError (v : Validator) (key message : String) :
    (v.AddError key message).hasError key = true := by
  unfold Validator.AddError
  split
  · rename_i h
    exact h
  · simp [Validator.hasError]

theorem Validator.Check_valid (v : Validator) (ok : Bool) (key message : String) :
    (v.Check ok key message).Valid = (v.Valid && ok) := by
  cases ok with
  | true => simp [Validator.Check]
  | false => simp [Validator.Check, Validator.AddError_not_valid]

theorem Validator.Check_keeps_error (v : Validator) (ok : Bool) (key message : String)
    (h : v.hasError key = true) : (v.Check ok key message).hasError key = true := by
  cases ok with
  | true => simpa [Validator.Check] using h
  | false => simp [Validator.Check, Validator.AddError_hasError]

/-- Claim C7, counterexample: a candidate of thirteen characters, each of two bytes,
is not empty and is 13 characters long, not 26; yet `ValidateTokenPlainText` leaves a
new validator valid on it and records no error, its length in bytes being 26. -/
theorem shape_check_counterexample :
    thirteenTwoByteChars.length = 13 ∧
    (ValidateTokenPlainText Validator.New thirteenTwoByteChars).Valid = true ∧
    (ValidateTokenPlainText Validator.New thirteenTwoByteChars).hasError "token" = false ∧
    ¬ ((ValidateTokenPlainText Validator.New thirteenTwoByteChars).Valid = true ↔
        (thirteenTwoByteChars ≠ "" ∧ thirteenTwoByteChars.length = 26)) := by
  refine ⟨by decide, by decide, by decide, ?_⟩
  intro h
  have := (h.mp (by decide)).2
  revert this
  decide

/-- Claim C7, amended: for every candidate string, `ValidateTokenPlainText` leaves the
validator valid if and only if it was valid and the candidate is non-empty and exactly
26 bytes long; an empty candidate and a candidate of any other length in bytes each
record an error under the key "token". -/
theorem ValidateTokenPlainText_valid_iff (v : Validator) (candidate : String) :
    ((ValidateTokenPlainText v candidate).Valid = true ↔
      (v.Valid = true ∧ candidate ≠ "" ∧ candidate.utf8ByteSize = 26)) ∧
    (candidate = "" ∨ candidate.utf8ByteSize ≠ 26 →
      (ValidateTokenPlainText v candidate).hasError "token" = true) := by
  constructor
  · simp [ValidateTokenPlainText, Validator.Check_valid, and_assoc]
  · intro h
    unfold ValidateTokenPlainText
    by_cases he : candidate = ""
    · apply Validator.Check_keeps_error
      simp [he, Validator.Check, Validator.AddError_hasError]
    · have hl : candidate.utf8ByteSize ≠ 26 := by
        rcases h with h | h
        · exact absurd h he
        · exact h
      simp [hl, Validator.Check, Validator.AddError_hasError]

/-- Claim C8: if the random source fails, `generateToken` returns no token together
with the source's error after exactly one read, and `TokenModel.New` returns that
error with no token, after that one read and without any call of `Insert`. -/
theorem generateToken_random_source_failure (env : Env) (userID ttl : Int) (scope : String)
    (s : Sys) (err : Error) (hread : env.rand s.randReads = Except.error err) :
    generateToken env userID ttl scope s
      = ((none, some err), { randReads := s.randReads + 1, inserts := s.inserts }) ∧
    TokenModel.New env userID ttl scope s
      = ((none, some err), { randReads := s.randReads + 1, inserts := s.inserts }) := by
  have hgen : generateToken env userID ttl scope s
      = ((none, some err), { randReads := s.randReads + 1, inserts := s.inserts }) := by
    simp only [generateToken, hread]
  exact ⟨hgen, by simp only [TokenModel.New, hgen]⟩

/-- Witness of C8: a random source that fails at every call. -/
theorem generateToken_random_source_failure_witness :
    generateToken failingEnv 7 86400 ScopeActivation ⟨0, []⟩
      = ((none, some (Error.other "rand: unavailable")), { randReads := 0 + 1, inserts := [] }) ∧
    TokenModel.New failingEnv 7 86400 ScopeActivation ⟨0, []⟩
      = ((none, some (Error.other "rand: unavailable")), { randReads := 0 + 1, inserts := [] }) :=
  generateToken_random_source_failure failingEnv 7 86400 ScopeActivation ⟨0, []⟩
    (Error.other "rand: unavailable") rfl

/-! ## Graceful shutdown -/

theorem snoc_eq_split (t pre post : List ServeEvent) (e b : ServeEvent)
    (h : t ++ [e] = pre ++ b :: post) :
    (post = [] ∧ pre = t ∧ e = b) ∨ (∃ post1, post = post1 ++ [e] ∧ t = pre ++ b :: post1) := by
  rcases List.eq_nil_or_concat post with hp | ⟨post1, x, hp⟩
  · subst hp
    have := List.append_inj' h (by simp)
    simp only [List.cons.injEq, and_true] at this
    exact Or.inl ⟨rfl, this.1.symm, this.2⟩
  · subst hp
    have h2 : t ++ [e] = (pre ++ b :: post1) ++ [x] := by simpa using h
    have := List.append_inj' h2 (by simp)
    simp only [List.cons.injEq, and_true] at this
    exact Or.inr ⟨post1, by rw [this.2, List.concat_eq_append], this.1⟩

theorem Precedes.snoc (a b e : ServeEvent) (t : List ServeEvent) (h : Precedes a b t)
    (he : e = b → a ∈ t) : Precedes a b (t ++ [e]) := by
  intro pre post hsplit
  rcases snoc_eq_split t pre post e b hsplit with ⟨_, hpre, heb⟩ | ⟨post1, _, ht⟩
  · subst hpre
    exact he heb
  · exact h pre post1 ht

theorem orderInv_snoc (t : List ServeEvent) (e : ServeEvent) (ho : orderInv t)
    (h1 : e = ServeEvent.waitCalled →
      ServeEvent.shutdownCalled ∈ t ∧ ∃ r, ServeEvent.shutdownReturned r ∈ t)
    (h2 : e = ServeEvent.waitReturned → ServeEvent.waitCalled ∈ t)
    (h3 : e = ServeEvent.logStoppedServer →
      ServeEvent.waitReturned ∈ t ∧ ServeEvent.shutdownReturned none ∈ t) :
    orderInv (t ++ [e]) := by
  obtain ⟨o1, o2, o3, o4, o5⟩ := ho
  refine ⟨Precedes.snoc _ _ _ _ o1 (fun h => (h1 h).1), ?_, Precedes.snoc _ _ _ _ o3 h2,
    Precedes.snoc _ _ _ _ o4 (fun h => (h3 h).1), Precedes.snoc _ _ _ _ o5 (fun h => (h3 h).2)⟩
  intro pre post hsplit
  rcases snoc_eq_split t pre post e _ hsplit with ⟨_, hpre, heb⟩ | ⟨post1, _, ht⟩
  · subst hpre
    exact (h1 heb).2
  · exact o2 pre post1 ht

theorem orderInv_nil : orderInv [] := by
  refine ⟨?_, ?_, ?_, ?_, ?_⟩ <;> intro pre post h <;> simp at h

theorem ServeInv_init : ServeInv ServeState.init := by
  refine ⟨?_, ?_, orderInv_nil⟩
  · simp [ServeState.init, backgroundInv, NoReceive]
  · simp [ServeState.init, mainInv, NoReceive]

theorem serveStep_inv (s s1 : ServeState) (x : ServeStep) (h : ServeInv s)
    (hstep : serveStep s x = some s1) : ServeInv s1 := by
  obtain ⟨main, bg, trace⟩ := s
  obtain ⟨hb, hm, ho⟩ := h
  simp only at hb hm ho
  cases x with
  | logStarting =>
    cases main <;> simp [serveStep] at hstep
    subst hstep
    refine ⟨?_, ?_, orderInv_snoc _ _ ho (by simp) (by simp) (by simp)⟩
    · cases bg <;>
        simp_all [backgroundInv, mainInv, NoReceive, ShutdownOnly]
    · simp_all [mainInv, NoReceive]
  | listenReturn err =>
    cases main <;> simp [serveStep] at hstep
    subst hstep
    refine ⟨?_, ?_, orderInv_snoc _ _ ho (by simp) (by simp) (by simp)⟩
    · cases bg <;>
        simp_all [backgroundInv, mainInv, NoReceive, ShutdownOnly]
    · by_cases herr : err = Error.errServerClosed <;>
        simp_all [mainInv, NoReceive]
  | signal =>
    cases bg <;> simp [serveStep] at hstep
    subst hstep
    have ho1 := orderInv_snoc _ ServeEvent.logCaughtSignal ho (by simp) (by simp) (by simp)
    have ho2 := orderInv_snoc _ ServeEvent.shutdownCalled ho1 (by simp) (by simp) (by simp)
    rw [List.append_assoc] at ho2
    refine ⟨?_, ?_, ho2⟩
    · simp_all [backgroundInv, NoReceive, ShutdownOnly]
    · rcases main with _ | _ | _ | _ | (_ | e) <;>
        first
        | (simp_all [backgroundInv, mainInv, NoReceive, ShutdownOnly]; done)
        | (simp_all [backgroundInv, mainInv, NoReceive, ShutdownOnly]; exact hm.1)
  | shutdownReturn err =>
    cases bg <;> simp [serveStep] at hstep
    subst hstep
    refine ⟨?_, ?_, orderInv_snoc _ _ ho (by simp) (by simp) (by simp)⟩
    · cases err <;> simp_all [backgroundInv, NoReceive, ShutdownOnly]
    · rcases main with _ | _ | _ | _ | (_ | e) <;>
        first
        | (simp_all [backgroundInv, mainInv, NoReceive, ShutdownOnly]; done)
        | (simp_all [backgroundInv, mainInv, NoReceive, ShutdownOnly]; exact hm.1)
  | handoff =>
    cases main <;> cases bg <;> simp [serveStep] at hstep
    · subst hstep
      refine ⟨?_, ?_, orderInv_snoc _ _ ho (by simp) (by simp) (by simp)⟩
      · simp_all [backgroundInv, mainInv, NoReceive, ShutdownOnly]
      · simp_all [backgroundInv, mainInv, NoReceive, ShutdownOnly]
        exact hm.1
    · subst hstep
      refine ⟨?_, ?_, orderInv_snoc _ _ ho (by simp) (by simp) (by simp)⟩
      · simp_all [backgroundInv, mainInv, NoReceive, ShutdownOnly]
      · simp_all [backgroundInv, mainInv, NoReceive, ShutdownOnly]
  | beginWait =>
    cases bg <;> simp [serveStep] at hstep
    subst hstep
    have hcalled : ServeEvent.shutdownCalled ∈ trace ∧ ∃ r, ServeEvent.shutdownReturned r ∈ trace := by
      obtain ⟨hc, hr | ⟨e, hr, _⟩⟩ := hb
      · exact ⟨hc, none, hr.1⟩
      · exact ⟨hc, some e, hr⟩
    have ho1 := orderInv_snoc _ ServeEvent.logCompletingTasks ho (by simp) (by simp) (by simp)
    have ho2 := orderInv_snoc _ ServeEvent.waitCalled ho1
      (fun _ => by
        obtain ⟨hc, r, hr⟩ := hcalled
        exact ⟨by simp [hc], r, by simp [hr]⟩) (by simp) (by simp)
    rw [List.append_assoc] at ho2
    refine ⟨?_, ?_, ho2⟩
    · simp_all [backgroundInv, NoReceive, ShutdownOnly]
    · rcases main with _ | _ | _ | _ | (_ | e) <;>
        first
        | (simp_all [backgroundInv, mainInv, NoReceive, ShutdownOnly]; done)
        | (simp_all [backgroundInv, mainInv, NoReceive, ShutdownOnly]; exact hm.1)
  | waitReturn =>
    cases bg <;> simp [serveStep] at hstep
    subst hstep
    refine ⟨?_, ?_, orderInv_snoc _ _ ho (by simp) (fun _ => hb.2.1) (by simp)⟩
    · simp_all [backgroundInv, NoReceive, ShutdownOnly]
    · rcases main with _ | _ | _ | _ | (_ | e) <;>
        first
        | (simp_all [backgroundInv, mainInv, NoReceive, ShutdownOnly]; done)
        | (simp_all [backgroundInv, mainInv, NoReceive, ShutdownOnly]; exact hm.1)
  | stopped =>
    cases main <;> simp [serveStep] at hstep
    subst hstep
    have hbg : bg = BackgroundPC.finished := hm.1
    subst hbg
    refine ⟨?_, ?_, orderInv_snoc _ _ ho (by simp) (by simp) (fun _ => ⟨hb.2.2.1, hb.2.2.2.1⟩)⟩
    · simp_all [backgroundInv, NoReceive, ShutdownOnly]
    · simp_all [backgroundInv, mainInv, NoReceive, ShutdownOnly]

theorem serveRun_inv (xs : List ServeStep) :
    ∀ (s s1 : ServeState), ServeInv s → serveRun s xs = some s1 → ServeInv s1 := by
  induction xs with
  | nil =>
    intro s s1 h hrun
    simp [serveRun] at hrun
    subst hrun
    exact h
  | cons x xs ih =>
    intro s s1 h hrun
    simp only [serveRun] at hrun
    cases hs : serveStep s x with
    | none => simp [hs] at hrun
    | some s2 =>
      simp only [hs] at hrun
      exact ih s2 s1 (serveStep_inv s s2 x h hs) hrun

theorem ServeReachable.inv (s : ServeState) (h : ServeReachable s) : ServeInv s := by
  obtain ⟨xs, hxs⟩ := h
  exact serveRun_inv xs ServeState.init s ServeInv_init hxs

theorem Precedes.mem_prefix (a b c : ServeEvent) (t pre post : List ServeEvent)
    (hab : Precedes a b t) (ht : t = pre ++ c :: post) (hb : b ∈ pre) : a ∈ pre := by
  obtain ⟨p1, p2, hp⟩ := List.append_of_mem hb
  have : t = p1 ++ b :: (p2 ++ c :: post) := by
    rw [ht, hp]
    simp
  have ha := hab p1 _ this
  rw [hp]
  exact List.mem_append_left _ ha

/-- Claim C9: in every state a run of `serve` can reach, `serve` has returned `nil`
only if `srv.Shutdown` returned without error, reported no error at all, `a.wg.Wait`
has returned and "stopped server" was logged; and in every run the order is kept: the
call of `a.wg.Wait` comes after the call and the return of `srv.Shutdown`, and the log
of "stopped server" comes after the call of `srv.Shutdown`, its return without error,
and the call and the return of `a.wg.Wait`. -/
theorem serve_stopped_only_after_drain (s : ServeState) (h : ServeReachable s) :
    (s.main = MainPC.returned none →
      ServeEvent.shutdownReturned none ∈ s.trace ∧ ShutdownOnly none s.trace ∧
      ServeEvent.waitReturned ∈ s.trace ∧ ServeEvent.logStoppedServer ∈ s.trace) ∧
    (∀ pre post, s.trace = pre ++ ServeEvent.waitCalled :: post →
      ServeEvent.shutdownCalled ∈ pre ∧ ∃ r, ServeEvent.shutdownReturned r ∈ pre) ∧
    (∀ pre post, s.trace = pre ++ ServeEvent.logStoppedServer :: post →
      ServeEvent.shutdownCalled ∈ pre ∧ ServeEvent.shutdownReturned none ∈ pre ∧
      ServeEvent.waitCalled ∈ pre ∧ ServeEvent.waitReturned ∈ pre) := by
  obtain ⟨hb, hm, o1, o2, o3, o4, o5⟩ := ServeReachable.inv s h
  refine ⟨?_, fun pre post ht => ⟨o1 pre post ht, o2 pre post ht⟩, ?_⟩
  · intro hmain
    rw [hmain] at hm hb
    obtain ⟨hbg, hlog⟩ := hm
    rw [hbg] at hb
    exact ⟨hb.2.2.2.1, hb.2.2.2.2.1, hb.2.2.1, hlog⟩
  · intro pre post ht
    have hwr := o4 pre post ht
    have hwc := Precedes.mem_prefix _ _ _ s.trace pre post o3 ht hwr
    have hsc := Precedes.mem_prefix _ _ _ s.trace pre post o1 ht hwc
    exact ⟨hsc, o5 pre post ht, hwc, hwr⟩

/-- Witness of C9: the state at the end of a graceful run, where `serve` has returned
`nil`. -/
theorem serve_stopped_only_after_drain_witness :
    ServeReachable gracefulFinal ∧
    ((gracefulFinal.main = MainPC.returned none →
      ServeEvent.shutdownReturned none ∈ gracefulFinal.trace ∧
      ShutdownOnly none gracefulFinal.trace ∧
      ServeEvent.waitReturned ∈ gracefulFinal.trace ∧
      ServeEvent.logStoppedServer ∈ gracefulFinal.trace) ∧
    (∀ pre post, gracefulFinal.trace = pre ++ ServeEvent.waitCalled :: post →
      ServeEvent.shutdownCalled ∈ pre ∧ ∃ r, ServeEvent.shutdownReturned r ∈ pre) ∧
    (∀ pre post, gracefulFinal.trace = pre ++ ServeEvent.logStoppedServer :: post →
      ServeEvent.shutdownCalled ∈ pre ∧ ServeEvent.shutdownReturned none ∈ pre ∧
      ServeEvent.waitCalled ∈ pre ∧ ServeEvent.waitReturned ∈ pre)) :=
  ⟨⟨gracefulRun, by decide⟩, serve_stopped_only_after_drain gracefulFinal ⟨gracefulRun, by decide⟩⟩

/-- Claim C10: in every state a run of `serve` can reach after `srv.Shutdown` reported
an error (a failure to close a listener, or the expiry of its 20-second deadline),
"stopped server" has not been logged and `serve` neither is about to log it nor has
returned `nil`; a result returned by `serve` is that error, unless
`srv.ListenAndServe` itself had failed, with an error other than `ErrServerClosed`,
which `serve` then returned; and when `srv.ListenAndServe` did not fail, the run
continues to the return of that error by `serve`. -/
theorem serve_shutdown_error_fails (s : ServeState) (err : Error) (h : ServeReachable s)
    (herr : ServeEvent.shutdownReturned (some err) ∈ s.trace) :
    ServeEvent.logStoppedServer ∉ s.trace ∧
    s.main ≠ MainPC.stopping ∧ s.main ≠ MainPC.returned none ∧
    (∀ r, s.main = MainPC.returned r →
      r = some err ∨
      ∃ e1, r = some e1 ∧ e1 ≠ Error.errServerClosed ∧ ServeEvent.listenReturned e1 ∈ s.trace) ∧
    ((∀ e1, ServeEvent.listenReturned e1 ∈ s.trace → e1 = Error.errServerClosed) →
      ∃ xs s1, serveRun s xs = some s1 ∧ s1.main = MainPC.returned (some err)) := by
  obtain ⟨hb, hm, _⟩ := ServeReachable.inv s h
  obtain ⟨main, bg, trace⟩ := s
  simp only at hb hm herr ⊢
  -- the goroutine is past `srv.Shutdown`, which reported `err` and nothing else
  have hcases : (bg = BackgroundPC.sendErr err ∧ NoReceive trace) ∨
      main = MainPC.returned (some err) := by
    cases bg with
    | awaitSignal => exact absurd herr (hb.1 _)
    | inShutdown => exact absurd herr (hb.2.1 _)
    | sendErr e =>
      have := hb.2.2.1 _ herr
      simp only [Option.some.injEq] at this
      subst this
      exact Or.inl ⟨rfl, hb.2.2.2⟩
    | completing =>
      rcases hb.2 with ⟨_, ho, _⟩ | ⟨e, _, ho, hmain⟩
      · exact absurd (ho _ herr) (by simp)
      · have := ho _ herr
        simp only [Option.some.injEq] at this
        subst this
        exact Or.inr hmain
    | inWait =>
      rcases hb.2.2 with ⟨_, ho, _⟩ | ⟨e, _, ho, hmain⟩
      · exact absurd (ho _ herr) (by simp)
      · have := ho _ herr
        simp only [Option.some.injEq] at this
        subst this
        exact Or.inr hmain
    | sendNil =>
      rcases hb.2.2.2 with ⟨_, ho, _⟩ | ⟨e, _, ho, hmain⟩
      · exact absurd (ho _ herr) (by simp)
      · have := ho _ herr
        simp only [Option.some.injEq] at this
        subst this
        exact Or.inr hmain
    | finished => exact absurd (hb.2.2.2.2.1 _ herr) (by simp)
  rcases hcases with ⟨hbg, hnr⟩ | hmain
  · subst hbg
    rcases main with _ | _ | _ | _ | (_ | e)
    · exact ⟨hm.2.2, by simp, by simp, by simp,
        fun _ => ⟨[ServeStep.logStarting, ServeStep.listenReturn Error.errServerClosed,
          ServeStep.handoff],
          { main := MainPC.returned (some err), background := BackgroundPC.completing,
            trace := trace ++ [ServeEvent.logStartingServer,
              ServeEvent.listenReturned Error.errServerClosed, ServeEvent.received (some err)] },
          by simp [serveRun, serveStep], rfl⟩⟩
    · exact ⟨hm.2.2, by simp, by simp, by simp,
        fun _ => ⟨[ServeStep.listenReturn Error.errServerClosed, ServeStep.handoff],
          { main := MainPC.returned (some err), background := BackgroundPC.completing,
            trace := trace ++ [ServeEvent.listenReturned Error.errServerClosed,
              ServeEvent.received (some err)] },
          by simp [serveRun, serveStep], rfl⟩⟩
    · exact ⟨hm.2.2, by simp, by simp, by simp,
        fun _ => ⟨[ServeStep.handoff],
          { main := MainPC.returned (some err), background := BackgroundPC.completing,
            trace := trace ++ [ServeEvent.received (some err)] },
          by simp [serveRun, serveStep], rfl⟩⟩
    · exact absurd hm.1 (by simp)
    · exact absurd hm.1 (by simp)
    · obtain ⟨hlog, ⟨hsd, _⟩ | ⟨_, hl, hne⟩⟩ := hm
      · have := hb.2.2.1 _ hsd
        simp only [Option.some.injEq] at this
        subst this
        exact ⟨hlog, by simp, by simp, by simp, fun _ => ⟨[], _, rfl, rfl⟩⟩
      · refine ⟨hlog, by simp, by simp, ?_, ?_⟩
        · intro r hr
          simp only [MainPC.returned.injEq] at hr
          exact Or.inr ⟨e, hr.symm, hne, hl⟩
        · intro hall
          exact absurd (hall e hl) hne
  · subst hmain
    exact ⟨hm.1, by simp, by simp, by simp, fun _ => ⟨[], _, rfl, rfl⟩⟩

/-- Witness of C10: the state in which `srv.Shutdown` has just reported the expiry of
its deadline and `serve` waits on the channel. -/
theorem serve_shutdown_error_fails_witness :
    ServeReachable timedOutState ∧
    ServeEvent.shutdownReturned (some Error.deadlineExceeded) ∈ timedOutState.trace ∧
    (ServeEvent.logStoppedServer ∉ timedOutState.trace ∧
    timedOutState.main ≠ MainPC.stopping ∧ timedOutState.main ≠ MainPC.returned none ∧
    (∀ r, timedOutState.main = MainPC.returned r →
      r = some Error.deadlineExceeded ∨
      ∃ e1, r = some e1 ∧ e1 ≠ Error.errServerClosed ∧
        ServeEvent.listenReturned e1 ∈ timedOutState.trace) ∧
    ((∀ e1, ServeEvent.listenReturned e1 ∈ timedOutState.trace → e1 = Error.errServerClosed) →
      ∃ xs s1, serveRun timedOutState xs = some s1 ∧
        s1.main = MainPC.returned (some Error.deadlineExceeded))) :=
  ⟨⟨timedOutRun, by decide⟩, by decide,
    serve_shutdown_error_fails timedOutState Error.deadlineExceeded ⟨timedOutRun, by decide⟩
      (by decide)⟩

/-! ## Order of the middleware -/

theorem visitChain_handler (callsNext : Middleware → Bool) (handler : String)
    (ms : List Middleware)
    (h : Stage.handler handler ∈ visitChain callsNext handler ms) :
    visitChain callsNext handler ms = ms.map Stage.middleware ++ [Stage.handler handler] := by
  induction ms with
  | nil => rfl
  | cons m ms ih =>
    cases hc : callsNext m with
    | false => simp [visitChain, hc] at h
    | true =>
      simp only [visitChain, hc, if_true, List.mem_cons] at h ⊢
      rcases h with h | h
      · cases h
      · simp [ih h]

/-- Claim C11, counterexample: `POST /v1/users` is registered by `routes()` with the
application handler `registerUserHandler`; a request on it that every middleware lets
through enters `enableCORS`, `authenticate` and the handler, and never `rateLimit`. -/
theorem route_order_counterexample :
    registerUserRoute ∈ routes ∧ registerUserRoute.isApplicationHandler = true ∧
    registerUserRoute.visit (fun _ => true)
      = [Stage.middleware Middleware.enableCORS, Stage.middleware Middleware.authenticate,
         Stage.handler "registerUserHandler"] ∧
    Stage.middleware Middleware.rateLimit ∉ registerUserRoute.visit (fun _ => true) := by
  decide

/-- Claim C11, amended: for every route registered by `routes()` with an application
handler, a request that reaches the handler has passed `authenticate` before it; on
the routes `/v1/healthcheck`, `/v1/movies` and `/v1/movies/:id`, and on no others,
it has passed `rateLimit`, and there it passed `rateLimit` first and only then
`authenticate`; on `/v1/users`, `/v1/users/activated` and
`/v1/tokens/authentication` it has passed no `rateLimit` at all. -/
theorem route_order (r : Route) (callsNext : Middleware → Bool) (hr : r ∈ routes)
    (happ : r.isApplicationHandler = true)
    (hreach : Stage.handler r.handler ∈ r.visit callsNext) :
    (∃ pre post, r.visit callsNext
        = pre ++ Stage.middleware Middleware.authenticate :: post ++ [Stage.handler r.handler] ∧
        Stage.middleware Middleware.authenticate ∉ pre) ∧
    ((r.path = "/v1/healthcheck" ∨ r.path = "/v1/movies" ∨ r.path = "/v1/movies/:id") →
      ∃ pre mid post, r.visit callsNext
        = pre ++ Stage.middleware Middleware.rateLimit :: mid ++
            Stage.middleware Middleware.authenticate :: post ++ [Stage.handler r.handler] ∧
        Stage.middleware Middleware.authenticate ∉ pre ∧
        Stage.middleware Middleware.rateLimit ∉ pre) ∧
    (¬ (r.path = "/v1/healthcheck" ∨ r.path = "/v1/movies" ∨ r.path = "/v1/movies/:id") →
      Stage.middleware Middleware.rateLimit ∉ r.visit callsNext) := by
  have hv := visitChain_handler callsNext r.handler r.middleware hreach
  unfold Route.visit
  rw [hv]
  simp only [routes, List.mem_cons, List.mem_singleton, List.not_mem_nil, or_false] at hr
  rcases hr with rfl | rfl | rfl | rfl | rfl | rfl | rfl | rfl | rfl | rfl
  · exact ⟨⟨[Stage.middleware Middleware.enableCORS, Stage.middleware Middleware.rateLimit], [],
        by simp, by simp⟩,
      fun _ => ⟨[Stage.middleware Middleware.enableCORS], [], [], by simp, by simp, by simp⟩,
      fun h => absurd h (by simp)⟩
  · exact ⟨⟨[Stage.middleware Middleware.enableCORS, Stage.middleware Middleware.rateLimit],
        [Stage.middleware Middleware.requireActivatedUser], by simp, by simp⟩,
      fun _ => ⟨[Stage.middleware Middleware.enableCORS], [],
        [Stage.middleware Middleware.requireActivatedUser], by simp, by simp, by simp⟩,
      fun h => absurd h (by simp)⟩
  · exact ⟨⟨[Stage.middleware Middleware.enableCORS, Stage.middleware Middleware.rateLimit],
        [Stage.middleware Middleware.requireActivatedUser], by simp, by simp⟩,
      fun _ => ⟨[Stage.middleware Middleware.enableCORS], [],
        [Stage.middleware Middleware.requireActivatedUser], by simp, by simp, by simp⟩,
      fun h => absurd h (by simp)⟩
  · exact ⟨⟨[Stage.middleware Middleware.enableCORS, Stage.middleware Middleware.rateLimit],
        [Stage.middleware Middleware.requireActivatedUser], by simp, by simp⟩,
      fun _ => ⟨[Stage.middleware Middleware.enableCORS], [],
        [Stage.middleware Middleware.requireActivatedUser], by simp, by simp, by simp⟩,
      fun h => absurd h (by simp)⟩
  · exact ⟨⟨[Stage.middleware Middleware.enableCORS, Stage.middleware Middleware.rateLimit],
        [Stage.middleware Middleware.requireActivatedUser], by simp, by simp⟩,
      fun _ => ⟨[Stage.middleware Middleware.enableCORS], [],
        [Stage.middleware Middleware.requireActivatedUser], by simp, by simp, by simp⟩,
      fun h => absurd h (by simp)⟩
  · exact ⟨⟨[Stage.middleware Middleware.enableCORS, Stage.middleware Middleware.rateLimit],
        [Stage.middleware Middleware.requireActivatedUser], by simp, by simp⟩,
      fun _ => ⟨[Stage.middleware Middleware.enableCORS], [],
        [Stage.middleware Middleware.requireActivatedUser], by simp, by simp, by simp⟩,
      fun h => absurd h (by simp)⟩
  · exact ⟨⟨[Stage.middleware Middleware.enableCORS], [], by simp, by simp⟩,
      fun h => absurd h (by simp), fun _ => by simp⟩
  · exact ⟨⟨[Stage.middleware Middleware.enableCORS], [], by simp, by simp⟩,
      fun h => absurd h (by simp), fun _ => by simp⟩
  · exact ⟨⟨[Stage.middleware Middleware.enableCORS], [], by simp, by simp⟩,
      fun h => absurd h (by simp), fun _ => by simp⟩
  · exact absurd happ (by decide)

/-- Witness of C11 as amended: a request on `POST /v1/users` that every middleware
lets through. -/
theorem route_order_witness :
    (∃ pre post, registerUserRoute.visit (fun _ => true)
        = pre ++ Stage.middleware Middleware.authenticate :: post ++
            [Stage.handler registerUserRoute.handler] ∧
        Stage.middleware Middleware.authenticate ∉ pre) ∧
    ((registerUserRoute.path = "/v1/healthcheck" ∨ registerUserRoute.path = "/v1/movies" ∨
        registerUserRoute.path = "/v1/movies/:id") →
      ∃ pre mid post, registerUserRoute.visit (fun _ => true)
        = pre ++ Stage.middleware Middleware.rateLimit :: mid ++
            Stage.middleware Middleware.authenticate :: post ++
            [Stage.handler registerUserRoute.handler] ∧
        Stage.middleware Middleware.authenticate ∉ pre ∧
        Stage.middleware Middleware.rateLimit ∉ pre) ∧
    (¬ (registerUserRoute.path = "/v1/healthcheck" ∨ registerUserRoute.path = "/v1/movies" ∨
        registerUserRoute.path = "/v1/movies/:id") →
      Stage.middleware Middleware.rateLimit ∉ registerUserRoute.visit (fun _ => true)) :=
  route_order registerUserRoute (fun _ => true) (by decide) (by decide) (by decide)

/-- Claim C12: with rate limiting enabled, the events of a request are: the mutex is
locked, the mutex is unlocked, and then either the next handler is called, when the
client's limiter allowed the request, or the rate-limit-exceeded response is sent, when
it did not. So the next handler is invoked if and only if the limiter admits the
request, a denied request gets the rate-limit-exceeded response and no call of the next
handler, and on both paths the mutex is released before the response or the next
handler. -/
theorem rateLimit_next_iff_allowed (cfg : LimiterConfig) (ip : String) (now : Time)
    (clients : Clients) (hen : cfg.enabled = true) :
    (rateLimitHandler cfg ip now clients).2
      = [Event.lock, Event.unlock,
         if ((effective cfg ip now clients).limiter.Allow now).2 = true then Event.next
         else Event.rateLimitExceededResponse] ∧
    (Event.next ∈ (rateLimitHandler cfg ip now clients).2 ↔
      ((effective cfg ip now clients).limiter.Allow now).2 = true) ∧
    (((effective cfg ip now clients).limiter.Allow now).2 = false →
      Event.rateLimitExceededResponse ∈ (rateLimitHandler cfg ip now clients).2 ∧
      Event.next ∉ (rateLimitHandler cfg ip now clients).2) := by
  rw [rateLimitHandler_enabled cfg ip now clients hen]
  cases hv : ((effective cfg ip now clients).limiter.Allow now).2 <;> simp

/-- Witness of C12: the first request of a client at the flag defaults. -/
theorem rateLimit_next_iff_allowed_witness :
    (rateLimitHandler defaultLimiterConfig "192.0.2.1" 0 []).2
      = [Event.lock, Event.unlock,
         if ((effective defaultLimiterConfig "192.0.2.1" 0 []).limiter.Allow 0).2 = true
         then Event.next else Event.rateLimitExceededResponse] ∧
    (Event.next ∈ (rateLimitHandler defaultLimiterConfig "192.0.2.1" 0 []).2 ↔
      ((effective defaultLimiterConfig "192.0.2.1" 0 []).limiter.Allow 0).2 = true) ∧
    (((effective defaultLimiterConfig "192.0.2.1" 0 []).limiter.Allow 0).2 = false →
      Event.rateLimitExceededResponse ∈ (rateLimitHandler defaultLimiterConfig "192.0.2.1" 0 []).2 ∧
      Event.next ∉ (rateLimitHandler defaultLimiterConfig "192.0.2.1" 0 []).2) :=
  rateLimit_next_iff_allowed defaultLimiterConfig "192.0.2.1" 0 [] rfl

/-! ## Authentication -/

/-- The outcomes of `authenticate` on sample headers: no header, a header without
`Bearer`, three parts, a token of the wrong length, an unknown token, a failing
lookup, a known token. -/
theorem authenticate_samples :
    authenticate sampleLookup "" = [AuthEvent.addVaryAuthorization,
      AuthEvent.contextSetUser none, AuthEvent.next] ∧
    authenticate sampleLookup "Basic AAAAAAAAAAAAAAAAAAAAAAAAAA"
      = [AuthEvent.addVaryAuthorization, AuthEvent.invalidAuthenticationTokenResponse] ∧
    authenticate sampleLookup "Bearer AAAAAAAAAAAAAAAAAAAAAAAAAA x"
      = [AuthEvent.addVaryAuthorization, AuthEvent.invalidAuthenticationTokenResponse] ∧
    authenticate sampleLookup "Bearer AAAA"
      = [AuthEvent.addVaryAuthorization, AuthEvent.invalidAuthenticationTokenResponse] ∧
    authenticate sampleLookup "Bearer CCCCCCCCCCCCCCCCCCCCCCCCCC"
      = [AuthEvent.addVaryAuthorization,
         AuthEvent.getForToken ScopeAuthentication "CCCCCCCCCCCCCCCCCCCCCCCCCC",
         AuthEvent.invalidAuthenticationTokenResponse] ∧
    authenticate sampleLookup "Bearer BBBBBBBBBBBBBBBBBBBBBBBBBB"
      = [AuthEvent.addVaryAuthorization,
         AuthEvent.getForToken ScopeAuthentication "BBBBBBBBBBBBBBBBBBBBBBBBBB",
         AuthEvent.serverErrorResponse (Error.other "connection refused")] ∧
    authenticate sampleLookup "Bearer AAAAAAAAAAAAAAAAAAAAAAAAAA"
      = [AuthEvent.addVaryAuthorization,
         AuthEvent.getForToken ScopeAuthentication "AAAAAAAAAAAAAAAAAAAAAAAAAA",
         AuthEvent.contextSetUser (some { ID := 7, Activated := true }), AuthEvent.next] := by
  decide

/-- Claim C13: for every lookup and every `Authorization` header, `authenticate` does
the following. An empty header makes the request anonymous and the next handler is
invoked. A non-empty header that is not exactly two space-separated parts of which
the first is `Bearer`, or whose token fails the shape check, or for whose token the
lookup reports record-not-found, gets the invalid-authentication-token response, and
the next handler is not invoked. A server-error response is sent only when the
header has the two parts, the token passed the shape check and the lookup failed with
an error other than record-not-found, and then it carries that error. -/
theorem authenticate_failures (getForToken : String → String → Except Error User)
    (header : String) :
    (header = "" →
      authenticate getForToken header
        = [AuthEvent.addVaryAuthorization, AuthEvent.contextSetUser none, AuthEvent.next]) ∧
    (header ≠ "" →
      ((Split header ' ').length ≠ 2 ∨ (Split header ' ').getD 0 "" ≠ "Bearer") →
      authenticate getForToken header
        = [AuthEvent.addVaryAuthorization, AuthEvent.invalidAuthenticationTokenResponse]) ∧
    (∀ token, header ≠ "" → Split header ' ' = ["Bearer", token] →
      (ValidateTokenPlainText Validator.New token).Valid = false →
      authenticate getForToken header
        = [AuthEvent.addVaryAuthorization, AuthEvent.invalidAuthenticationTokenResponse]) ∧
    (∀ token, header ≠ "" → Split header ' ' = ["Bearer", token] →
      (ValidateTokenPlainText Validator.New token).Valid = true →
      getForToken ScopeAuthentication token = Except.error ErrRecordNotFound →
      authenticate getForToken header
        = [AuthEvent.addVaryAuthorization, AuthEvent.getForToken ScopeAuthentication token,
           AuthEvent.invalidAuthenticationTokenResponse]) ∧
    (AuthEvent.invalidAuthenticationTokenResponse ∈ authenticate getForToken header →
      AuthEvent.next ∉ authenticate getForToken header) ∧
    (∀ err, AuthEvent.serverErrorResponse err ∈ authenticate getForToken header →
      err ≠ ErrRecordNotFound ∧ AuthEvent.next ∉ authenticate getForToken header ∧
      ∃ token, Split header ' ' = ["Bearer", token] ∧
        (ValidateTokenPlainText Validator.New token).Valid = true ∧
        getForToken ScopeAuthentication token = Except.error err) := by
  refine ⟨?_, ?_, ?_, ?_, ?_, ?_⟩
  · intro h
    simp [authenticate, h]
  · intro h hparts
    simp only [authenticate, h, if_false, hparts, if_true]
  · intro token h hsplit hv
    simp [authenticate, h, hsplit, hv]
  · intro token h hsplit hv hlookup
    simp [authenticate, h, hsplit, hv, hlookup]
  · unfold authenticate
    by_cases h : header = ""
    · simp [h]
    · simp only [h, if_false]
      split
      · simp
      · split
        · simp
        · split
          · split <;> simp
          · simp
  · intro err
    unfold authenticate
    by_cases h : header = ""
    · simp [h]
    · simp only [h, if_false]
      split
      · simp
      · rename_i hparts
        split
        · simp
        · rename_i hvalid
          have hlen : (Split header ' ').length = 2 ∧ (Split header ' ').getD 0 "" = "Bearer" := by
            by_contra hc
            apply hparts
            by_cases h1 : (Split header ' ').length = 2
            · right
              intro h2
              exact hc ⟨h1, h2⟩
            · left
              exact h1
          have hsplit : Split header ' ' = ["Bearer", (Split header ' ').getD 1 ""] := by
            obtain ⟨hl, hb⟩ := hlen
            match hs : Split header ' ', hl, hb with
            | [a, b], _, hb =>
              simp only [List.getD_cons_zero] at hb
              simp [hb]
          split
          · rename_i e hlookup
            split
            · simp
            · rename_i hne
              simp only [List.mem_cons, List.mem_singleton, AuthEvent.serverErrorResponse.injEq,
                false_or, reduceCtorEq, List.not_mem_nil, or_false]
              intro he
              subst he
              refine ⟨hne, by simp, _, hsplit, ?_, hlookup⟩
              simpa using hvalid
          · simp

/-! ## Issued tokens pass the shape check -/

theorem encodeStd_getD_mem : ∀ i, i < 32 → encodeStd.getD i 'A' ∈ encodeStd := by
  decide

theorem base32Char_mem (v : Nat) : base32Char v ∈ encodeStd :=
  encodeStd_getD_mem (v % 32) (Nat.mod_lt v (by decide))

theorem encodeQuantum_mem (b0 b1 b2 b3 b4 : UInt8) (c : Char)
    (h : c ∈ encodeQuantum b0 b1 b2 b3 b4) : c ∈ encodeStd := by
  simp only [encodeQuantum, List.mem_cons, List.mem_singleton, List.not_mem_nil, or_false] at h
  rcases h with h | h | h | h | h | h | h | h <;> (rw [h]; exact base32Char_mem _)

theorem EncodeToString_mem (src : List UInt8) :
    ∀ c, c ∈ EncodeToString src → c ∈ encodeStd := by
  induction src using EncodeToString.induct with
  | case1 b0 b1 b2 b3 b4 rest ih =>
    intro c hc
    simp only [EncodeToString, List.mem_append] at hc
    rcases hc with hc | hc
    · exact encodeQuantum_mem _ _ _ _ _ c hc
    · exact ih c hc
  | case2 b0 b1 b2 b3 =>
    intro c hc
    exact encodeQuantum_mem _ _ _ _ _ c (List.mem_of_mem_take hc)
  | case3 b0 b1 b2 =>
    intro c hc
    exact encodeQuantum_mem _ _ _ _ _ c (List.mem_of_mem_take hc)
  | case4 b0 b1 =>
    intro c hc
    exact encodeQuantum_mem _ _ _ _ _ c (List.mem_of_mem_take hc)
  | case5 b0 =>
    intro c hc
    exact encodeQuantum_mem _ _ _ _ _ c (List.mem_of_mem_take hc)
  | case6 =>
    intro c hc
    simp [EncodeToString] at hc

/-- Every character of the alphabet is one byte long, is not the padding character,
and its byte is one of `A` to `Z` or `2` to `7`. -/
theorem encodeStd_ascii :
    ∀ c ∈ encodeStd, c.utf8Size = 1 ∧ c ≠ '=' ∧
      (String.utf8EncodeChar c).length = 1 ∧
      ∀ b ∈ String.utf8EncodeChar c, isBase32Byte b = true := by
  decide

theorem utf8Len_of_one_byte (l : List Char) (h : ∀ c ∈ l, c.utf8Size = 1) :
    String.utf8Len l = l.length := by
  induction l with
  | nil => rfl
  | cons c cs ih =>
    simp only [String.utf8Len_cons, List.length_cons]
    rw [ih (fun d hd => h d (List.mem_cons_of_mem c hd)), h c (List.mem_cons_self c cs)]

theorem bytesOf_base32 (l : List Char) (h : ∀ c ∈ l, c ∈ encodeStd) :
    (bytesOf (String.mk l)).length = l.length ∧
      ∀ b ∈ bytesOf (String.mk l), isBase32Byte b = true := by
  constructor
  · induction l with
    | nil => simp [bytesOf]
    | cons c cs ih =>
      have hc := (encodeStd_ascii c (h c (List.mem_cons_self c cs))).2.2.1
      have := ih (fun d hd => h d (List.mem_cons_of_mem c hd))
      simp only [bytesOf, List.flatMap_cons, List.length_append, List.length_cons] at this ⊢
      omega
  · intro b hb
    simp only [bytesOf, List.mem_flatMap] at hb
    obtain ⟨c, hc, hbc⟩ := hb
    exact (encodeStd_ascii c (h c hc)).2.2.2 b hbc

theorem ValidateTokenPlainText_valid_parts (v : Validator) (candidate : String) :
    (ValidateTokenPlainText v candidate).Valid = true ↔
      (v.Valid = true ∧ candidate ≠ "" ∧ candidate.utf8ByteSize = 26) := by
  simp [ValidateTokenPlainText, Validator.Check_valid, and_assoc]

/-- Claim C14: for every 16 bytes delivered by the random source, `generateToken`
returns a token whose plaintext `ValidateTokenPlainText` accepts: a new validator
stays valid on it. The plaintext is the unpadded base-32 encoding of the bytes; all its
characters are in the alphabet and none is the padding character; all its bytes are
among `A` to `Z` and `2` to `7`; and its length is 26 in bytes as well as in
characters. -/
theorem issued_plaintext_passes_shape_check (env : Env) (userID ttl : Int) (scope : String)
    (s : Sys) (delivered : List UInt8) (hread : env.rand s.randReads = Except.ok delivered)
    (hlen : delivered.length = 16) :
    ∃ t : Token, (generateToken env userID ttl scope s).1 = (some t, none) ∧
      t.Plaintext = String.mk (EncodeToString delivered) ∧
      (ValidateTokenPlainText Validator.New t.Plaintext).Valid = true ∧
      (∀ c ∈ t.Plaintext.data, c ∈ encodeStd ∧ c ≠ '=') ∧
      (∀ b ∈ bytesOf t.Plaintext, isBase32Byte b = true) ∧
      (bytesOf t.Plaintext).length = 26 ∧
      t.Plaintext.utf8ByteSize = 26 ∧ t.Plaintext.length = 26 := by
  have hgen : (generateToken env userID ttl scope s).1
      = (some { Plaintext := String.mk (EncodeToString delivered),
                Hash := Sum256 (bytesOf (String.mk (EncodeToString delivered))),
                UserID := userID, Expiry := env.now + ttl, Scope := scope }, none) := by
    simp only [generateToken, hread, fill16_of_length delivered hlen]
  have hmem := EncodeToString_mem delivered
  have hchars : (EncodeToString delivered).length = 26 := by
    rw [EncodeToString_length, hlen]
    rfl
  have hsize : (String.mk (EncodeToString delivered)).utf8ByteSize = 26 := by
    rw [String.utf8ByteSize_mk,
      utf8Len_of_one_byte _ (fun c hc => (encodeStd_ascii c (hmem c hc)).1), hchars]
  have hbytes := bytesOf_base32 (EncodeToString delivered) hmem
  refine ⟨_, hgen, rfl, ?_, ?_, hbytes.2, ?_, hsize, ?_⟩
  · have hne : String.mk (EncodeToString delivered) ≠ "" := by
      intro h0
      rw [h0] at hsize
      revert hsize
      decide
    exact ((ValidateTokenPlainText_valid_parts Validator.New _).mpr ⟨rfl, hne, hsize⟩)
  · intro c hc
    exact ⟨hmem c hc, (encodeStd_ascii c (hmem c hc)).2.1⟩
  · rw [hbytes.1, hchars]
  · exact hchars

/-- Witness of C14: the random source delivers sixteen bytes `0xff`. -/
theorem issued_plaintext_passes_shape_check_witness :
    ∃ t : Token, (generateToken onesEnv 9 3600 ScopeActivation ⟨0, []⟩).1 = (some t, none) ∧
      t.Plaintext = String.mk (EncodeToString (List.replicate 16 255)) ∧
      (ValidateTokenPlainText Validator.New t.Plaintext).Valid = true ∧
      (∀ c ∈ t.Plaintext.data, c ∈ encodeStd ∧ c ≠ '=') ∧
      (∀ b ∈ bytesOf t.Plaintext, isBase32Byte b = true) ∧
      (bytesOf t.Plaintext).length = 26 ∧
      t.Plaintext.utf8ByteSize = 26 ∧ t.Plaintext.length = 26 :=
  issued_plaintext_passes_shape_check onesEnv 9 3600 ScopeActivation ⟨0, []⟩
    (List.replicate 16 255) rfl rfl

/-! ## One bucket per key seen and not evicted, on each rate-limited route -/

theorem Clients.records_eq_zero_iff (m : Clients) (ip : String) :
    m.records ip = 0 ↔ m.find ip = none := by
  induction m with
  | nil => simp [Clients.records, Clients.find]
  | cons e rest ih =>
    obtain ⟨k, c⟩ := e
    unfold Clients.records at ih ⊢
    by_cases hk : k = ip
    · simp [Clients.find, hk, List.filter_cons]
    · simp [Clients.find, hk, List.filter_cons, ih]

theorem Clients.records_of_single (m : Clients) (h : ∀ k, m.records k ≤ 1) (ip : String) :
    m.records ip = if (m.find ip).isSome then 1 else 0 := by
  cases hf : m.find ip with
  | none => simpa using (Clients.records_eq_zero_iff m ip).mpr hf
  | some c =>
    have hne : m.records ip ≠ 0 := by
      intro h0
      rw [(Clients.records_eq_zero_iff m ip).mp h0] at hf
      cases hf
    have := h ip
    simp only [Option.isSome_some, if_true]
    omega

theorem Clients.single_tail (e : String × Client) (rest : Clients)
    (h : ∀ k, Clients.records (e :: rest) k ≤ 1) : ∀ k, Clients.records rest k ≤ 1 := by
  intro k
  have := h k
  unfold Clients.records at this ⊢
  rw [List.filter_cons] at this
  split at this
  · simp only [List.length_cons] at this
    omega
  · exact this

theorem Clients.find_filter (m : Clients) (p : String × Client → Bool)
    (h : ∀ k, m.records k ≤ 1) (ip : String) :
    Clients.find (m.filter p) ip
      = (m.find ip).bind (fun c => if p (ip, c) then some c else none) := by
  induction m with
  | nil => simp [Clients.find]
  | cons e rest ih =>
    obtain ⟨k, c⟩ := e
    have ih1 := ih (Clients.single_tail (k, c) rest h)
    by_cases hk : k = ip
    · subst hk
      have hrest : Clients.find rest k = none := by
        apply (Clients.records_eq_zero_iff rest k).mp
        have := h k
        unfold Clients.records at this ⊢
        simp only [List.filter_cons, decide_True, if_true, List.length_cons] at this
        omega
      cases hp : p (k, c) with
      | true => simp [List.filter_cons, hp, Clients.find]
      | false =>
        simp [List.filter_cons, hp, Clients.find, ih1, hrest]
    · cases hp : p (k, c) with
      | true => simp [List.filter_cons, hp, Clients.find, hk, ih1]
      | false => simp [List.filter_cons, hp, Clients.find, hk, ih1]

theorem Clients.mem_unique (m : Clients) (h : ∀ k, m.records k ≤ 1) (x e : String × Client)
    (hx : x ∈ m) (he : e ∈ m) (hk : x.1 = e.1) : x = e := by
  induction m with
  | nil => cases hx
  | cons y rest ih =>
    have htail := Clients.single_tail y rest h
    have hzero : ∀ z ∈ rest, z.1 = y.1 → False := by
      intro z hz hzy
      have hy := h y.1
      unfold Clients.records at hy
      simp only [List.filter_cons, decide_True, if_true, List.length_cons] at hy
      have hmem : z ∈ rest.filter (fun e => decide (e.1 = y.1)) := by
        simp [List.mem_filter, hz, hzy]
      have : 0 < (rest.filter (fun e => decide (e.1 = y.1))).length :=
        List.length_pos_of_mem hmem
      omega
    rcases List.mem_cons.mp hx with hx1 | hx1 <;> rcases List.mem_cons.mp he with he1 | he1
    · rw [hx1, he1]
    · subst hx1
      exact absurd hk.symm (fun hc => hzero e he1 hc)
    · subst he1
      exact absurd hk (fun hc => hzero x hx1 hc)
    · exact ih htail hx1 he1

theorem cleanup_foldl_eq_filter (now : Time) (l : Clients) :
    ∀ acc : Clients,
      l.foldl (fun m e => if now - e.2.lastSeen > 3 * minute then m.delete e.1 else m) acc
        = acc.filter (fun e =>
            !(l.any (fun x => decide (x.1 = e.1) && decide (now - x.2.lastSeen > 3 * minute)))) := by
  induction l with
  | nil => intro acc; simp
  | cons x l ih =>
    intro acc
    simp only [List.foldl_cons]
    rw [ih]
    by_cases hs : now - x.2.lastSeen > 3 * minute
    · simp only [hs, if_true, Clients.delete, List.filter_filter]
      apply List.filter_congr
      intro e _
      by_cases hk : x.1 = e.1
      · simp [hk, hs]
      · have hk2 : ¬ e.1 = x.1 := fun hc => hk hc.symm
        simp [hk, hk2, hs]
    · simp only [hs, if_false]
      apply List.filter_congr
      intro e _
      simp [hs]

theorem cleanup_eq_filter (now : Time) (m : Clients) (h : ∀ k, m.records k ≤ 1) :
    (cleanup now m).1 = m.filter (fun e => !decide (now - e.2.lastSeen > 3 * minute)) := by
  unfold cleanup
  simp only
  rw [cleanup_foldl_eq_filter]
  apply List.filter_congr
  intro e he
  by_cases hs : now - e.2.lastSeen > 3 * minute
  · have : (m.any (fun x => decide (x.1 = e.1) && decide (now - x.2.lastSeen > 3 * minute)))
        = true := by
      rw [List.any_eq_true]
      exact ⟨e, he, by simp [hs]⟩
    simp [this, hs]
  · have : (m.any (fun x => decide (x.1 = e.1) && decide (now - x.2.lastSeen > 3 * minute)))
        = false := by
      rw [List.any_eq_false]
      intro x hx hc
      simp only [Bool.and_eq_true, decide_eq_true_eq] at hc
      have := Clients.mem_unique m h x e hx he hc.1
      rw [this] at hc
      exact hs hc.2
    simp [this, hs]

theorem cleanup_find (now : Time) (m : Clients) (h : ∀ k, m.records k ≤ 1) (ip : String) :
    (cleanup now m).1.find ip
      = (m.find ip).bind (fun c => if now - c.lastSeen > 3 * minute then none else some c) := by
  rw [cleanup_eq_filter now m h, Clients.find_filter m _ h ip]
  cases m.find ip with
  | none => rfl
  | some c =>
    by_cases hs : now - c.lastSeen > 3 * minute <;> simp [hs] <;> linarith

theorem rateLimitHandler_lastSeen (cfg : LimiterConfig) (ip k : String) (now : Time)
    (m : Clients) (hen : cfg.enabled = true) :
    ((rateLimitHandler cfg ip now m).1.find k).map (fun c => c.lastSeen)
      = if k = ip then some now else (m.find k).map (fun c => c.lastSeen) := by
  rw [rateLimitHandler_enabled cfg ip now m hen]
  by_cases hk : k = ip
  · subst hk
    simp [Clients.find_store_same]
  · simp [Clients.find_store_other _ _ _ _ hk, hk]

theorem cleanup_lastSeen (now : Time) (m : Clients) (h : ∀ k, m.records k ≤ 1) (ip : String) :
    ((cleanup now m).1.find ip).map (fun c => c.lastSeen)
      = (match (m.find ip).map (fun c => c.lastSeen) with
         | some seen => if now - seen > 3 * minute then none else some seen
         | none => none) := by
  rw [cleanup_find now m h ip]
  cases m.find ip with
  | none => rfl
  | some c =>
    by_cases hs : now - c.lastSeen > 3 * minute <;> simp [hs]

theorem App.getElem_lt (a : App) (route : Nat) (o : Option RateLimiter)
    (h : a[route]? = some o) : route < a.length := by
  rcases List.getElem?_eq_some_iff.mp h with ⟨hlt, _⟩
  exact hlt

/-- Along a run with the limiter enabled, the limiter of a rate-limited route stays
that route's limiter, and the last-seen time of its record for a key is what the
history says: the record is there exactly when the key was seen on the route and not
evicted since. -/
theorem App.run_lastSeen (cfg : LimiterConfig) (hen : cfg.enabled = true)
    (xs : List AppAction) :
    ∀ (a a1 : App), a.Single → App.run cfg a xs = some a1 →
      ∀ (route : Nat) (rl : RateLimiter) (ip : String), a[route]? = some (some rl) →
        ∃ rl1, a1[route]? = some (some rl1) ∧
          (rl1.clients.find ip).map (fun c => c.lastSeen)
            = lastSeenAfter ((rl.clients.find ip).map (fun c => c.lastSeen)) route ip xs := by
  induction xs with
  | nil =>
    intro a a1 _ hrun route rl ip hrl
    simp [App.run] at hrun
    subst hrun
    exact ⟨rl, hrl, rfl⟩
  | cons x xs ih =>
    intro a a1 hs hrun route rl ip hrl
    simp only [App.run] at hrun
    cases hstep : a.step cfg x with
    | none => simp [hstep] at hrun
    | some a2 =>
      simp only [hstep] at hrun
      have hs2 := App.step_single cfg a a2 x hs hstep
      cases x with
      | request r k now =>
        simp only [App.step] at hstep
        cases har : a[r]? with
        | none => simp [har] at hstep
        | some o =>
          cases o with
          | none =>
            simp [har] at hstep
            subst hstep
            have hne : ¬ (r = route ∧ k = ip) := by
              rintro ⟨hr, _⟩
              subst hr
              rw [har] at hrl
              cases hrl
            simp only [lastSeenAfter, hne, if_false]
            exact ih a a1 hs hrun route rl ip hrl
          | some rl0 =>
            simp [har, RateLimiter.step] at hstep
            subst hstep
            by_cases hr : r = route
            · subst hr
              rw [har] at hrl
              simp only [Option.some.injEq] at hrl
              subst hrl
              have hlt := App.getElem_lt a r _ har
              obtain ⟨rl1, h1, h2⟩ := ih _ a1 hs2 hrun r _ ip (List.getElem?_set_self hlt)
              refine ⟨rl1, h1, ?_⟩
              rw [h2]
              simp only [rateLimitHandler_lastSeen cfg k ip now rl0.clients hen, lastSeenAfter,
                true_and]
              by_cases hk : k = ip
              · subst hk
                simp
              · have hk2 : ¬ ip = k := fun hc => hk hc.symm
                simp [hk, hk2]
            · have hne : ¬ (r = route ∧ k = ip) := fun hc => hr hc.1
              simp only [lastSeenAfter, hne, if_false]
              exact ih _ a1 hs2 hrun route rl ip (by rw [List.getElem?_set_ne hr]; exact hrl)
      | cleanup r now =>
        simp only [App.step] at hstep
        cases har : a[r]? with
        | none => simp [har] at hstep
        | some o =>
          cases o with
          | none => simp [har] at hstep
          | some rl0 =>
            cases hp : rl0.cleanupPending with
            | false => simp [har, RateLimiter.step, hp] at hstep
            | true =>
              simp [har, RateLimiter.step, hp] at hstep
              subst hstep
              by_cases hr : r = route
              · subst hr
                rw [har] at hrl
                simp only [Option.some.injEq] at hrl
                subst hrl
                have hlt := App.getElem_lt a r _ har
                obtain ⟨rl1, h1, h2⟩ := ih _ a1 hs2 hrun r _ ip (List.getElem?_set_self hlt)
                refine ⟨rl1, h1, ?_⟩
                rw [h2]
                simp only [cleanup_lastSeen now rl0.clients (hs r rl0 har) ip, lastSeenAfter,
                  if_true]
              · simp only [lastSeenAfter, hr, if_false]
                exact ih _ a1 hs2 hrun route rl ip (by rw [List.getElem?_set_ne hr]; exact hrl)

/-- Along a run, a route without a limiter stays without one. -/
theorem App.run_unlimited (cfg : LimiterConfig) (xs : List AppAction) :
    ∀ (a a1 : App), App.run cfg a xs = some a1 →
      ∀ (route : Nat), a[route]? = some none → a1[route]? = some none := by
  induction xs with
  | nil =>
    intro a a1 hrun route h
    simp [App.run] at hrun
    subst hrun
    exact h
  | cons x xs ih =>
    intro a a1 hrun route h
    simp only [App.run] at hrun
    cases hstep : a.step cfg x with
    | none => simp [hstep] at hrun
    | some a2 =>
      simp only [hstep] at hrun
      apply ih a2 a1 hrun route
      cases x with
      | request r k now =>
        simp only [App.step] at hstep
        cases har : a[r]? with
        | none => simp [har] at hstep
        | some o =>
          cases o with
          | none =>
            simp [har] at hstep
            subst hstep
            exact h
          | some rl0 =>
            simp [har, RateLimiter.step] at hstep
            subst hstep
            have hr : r ≠ route := by
              intro hc
              subst hc
              rw [har] at h
              cases h
            rw [List.getElem?_set_ne hr]
            exact h
      | cleanup r now =>
        simp only [App.step] at hstep
        cases har : a[r]? with
        | none => simp [har] at hstep
        | some o =>
          cases o with
          | none => simp [har] at hstep
          | some rl0 =>
            cases hp : rl0.cleanupPending with
            | false => simp [har, RateLimiter.step, hp] at hstep
            | true =>
              simp [har, RateLimiter.step, hp] at hstep
              subst hstep
              have hr : r ≠ route := by
                intro hc
                subst hc
                rw [har] at h
                cases h
              rw [List.getElem?_set_ne hr]
              exact h

theorem App.init_getElem (route : Nat) (r : Route) (h : routes[route]? = some r) :
    App.init[route]? = some (if r.rateLimited = true then some rateLimit else none) := by
  simp only [App.init, List.getElem?_map, h, Option.map_some', Route.rateLimited,
    decide_eq_true_eq]

theorem App.run_length (cfg : LimiterConfig) (xs : List AppAction) :
    ∀ (a a1 : App), App.run cfg a xs = some a1 → a1.length = a.length := by
  induction xs with
  | nil =>
    intro a a1 hrun
    simp [App.run] at hrun
    subst hrun
    rfl
  | cons x xs ih =>
    intro a a1 hrun
    simp only [App.run] at hrun
    cases hstep : a.step cfg x with
    | none => simp [hstep] at hrun
    | some a2 =>
      simp only [hstep] at hrun
      rw [ih a2 a1 hrun]
      cases x with
      | request r k now =>
        simp only [App.step] at hstep
        cases har : a[r]? with
        | none => simp [har] at hstep
        | some o =>
          cases o with
          | none =>
            simp [har] at hstep
            subst hstep
            rfl
          | some rl0 =>
            simp [har, RateLimiter.step] at hstep
            subst hstep
            simp
      | cleanup r now =>
        simp only [App.step] at hstep
        cases har : a[r]? with
        | none => simp [har] at hstep
        | some o =>
          cases o with
          | none => simp [har] at hstep
          | some rl0 =>
            cases hp : rl0.cleanupPending with
            | false => simp [har, RateLimiter.step, hp] at hstep
            | true =>
              simp [har, RateLimiter.step, hp] at hstep
              subst hstep
              simp

/-- From the start of the application with the limiter enabled: a limiter the state
holds for a route has, for every key, the record the history says. -/
theorem App.run_init_lastSeen (cfg : LimiterConfig) (hen : cfg.enabled = true)
    (xs : List AppAction) (a : App) (hrun : App.run cfg App.init xs = some a)
    (route : Nat) (rl : RateLimiter) (ip : String) (hrl : a[route]? = some (some rl)) :
    (rl.clients.find ip).map (fun c => c.lastSeen) = lastSeenOn route ip xs := by
  have hlt : route < App.init.length := by
    rw [← App.run_length cfg xs App.init a hrun]
    exact App.getElem_lt a route _ hrl
  cases hinit : App.init[route]? with
  | none =>
    have := List.getElem?_eq_none_iff.mp hinit
    omega
  | some o =>
    cases o with
    | none =>
      rw [App.run_unlimited cfg xs App.init a hrun route hinit] at hrl
      cases hrl
    | some rl0 =>
      obtain ⟨rl1, h1, h2⟩ :=
        App.run_lastSeen cfg hen xs App.init a App.init_single hrun route rl0 ip hinit
      rw [hrl] at h1
      simp only [Option.some.injEq] at h1
      subst h1
      rw [h2]
      have hmem : some rl0 ∈ App.init := List.getElem?_mem hinit
      have hrl0 : rl0 = rateLimit := by
        simp [App.init, routes] at hmem
        exact hmem
      subst hrl0
      rfl

/-- Along a run, a route with a limiter keeps one. -/
theorem App.run_limited (cfg : LimiterConfig) (xs : List AppAction) :
    ∀ (a a1 : App), App.run cfg a xs = some a1 →
      ∀ (route : Nat) (rl : RateLimiter), a[route]? = some (some rl) →
        ∃ rl1, a1[route]? = some (some rl1) := by
  induction xs with
  | nil =>
    intro a a1 hrun route rl h
    simp [App.run] at hrun
    subst hrun
    exact ⟨rl, h⟩
  | cons x xs ih =>
    intro a a1 hrun route rl h
    simp only [App.run] at hrun
    cases hstep : a.step cfg x with
    | none => simp [hstep] at hrun
    | some a2 =>
      simp only [hstep] at hrun
      have hlt := App.getElem_lt a route _ h
      have h2 : ∃ rl2, a2[route]? = some (some rl2) := by
        cases x with
        | request r k now =>
          simp only [App.step] at hstep
          cases har : a[r]? with
          | none => simp [har] at hstep
          | some o =>
            cases o with
            | none =>
              simp [har] at hstep
              subst hstep
              exact ⟨rl, h⟩
            | some rl0 =>
              simp [har, RateLimiter.step] at hstep
              subst hstep
              by_cases hr : r = route
              · subst hr
                exact ⟨_, List.getElem?_set_self hlt⟩
              · exact ⟨rl, by rw [List.getElem?_set_ne hr]; exact h⟩
        | cleanup r now =>
          simp only [App.step] at hstep
          cases har : a[r]? with
          | none => simp [har] at hstep
          | some o =>
            cases o with
            | none => simp [har] at hstep
            | some rl0 =>
              cases hp : rl0.cleanupPending with
              | false => simp [har, RateLimiter.step, hp] at hstep
              | true =>
                simp [har, RateLimiter.step, hp] at hstep
                subst hstep
                by_cases hr : r = route
                · subst hr
                  exact ⟨_, List.getElem?_set_self hlt⟩
                · exact ⟨rl, by rw [List.getElem?_set_ne hr]; exact h⟩
      obtain ⟨rl2, hrl2⟩ := h2
      exact ih a2 a1 hrun route rl2 hrl2

/-- Along a run with the limiter disabled, maps that are empty stay empty. -/
theorem App.run_disabled_empty (cfg : LimiterConfig) (hdis : cfg.enabled = false)
    (xs : List AppAction) :
    ∀ (a a1 : App), (∀ (route : Nat) (rl : RateLimiter), a[route]? = some (some rl) →
        rl.clients = []) →
      App.run cfg a xs = some a1 →
      ∀ (route : Nat) (rl : RateLimiter), a1[route]? = some (some rl) → rl.clients = [] := by
  induction xs with
  | nil =>
    intro a a1 h hrun
    simp [App.run] at hrun
    subst hrun
    exact h
  | cons x xs ih =>
    intro a a1 h hrun
    simp only [App.run] at hrun
    cases hstep : a.step cfg x with
    | none => simp [hstep] at hrun
    | some a2 =>
      simp only [hstep] at hrun
      apply ih a2 a1 _ hrun
      intro route rl hrl
      cases x with
      | request r k now =>
        simp only [App.step] at hstep
        cases har : a[r]? with
        | none => simp [har] at hstep
        | some o =>
          cases o with
          | none =>
            simp [har] at hstep
            subst hstep
            exact h route rl hrl
          | some rl0 =>
            simp [har, RateLimiter.step] at hstep
            subst hstep
            by_cases hr : r = route
            · subst hr
              rw [List.getElem?_set_self (App.getElem_lt a r _ har)] at hrl
              simp only [Option.some.injEq] at hrl
              subst hrl
              simp only [rateLimitHandler_disabled cfg k now rl0.clients hdis]
              exact h r rl0 har
            · rw [List.getElem?_set_ne hr] at hrl
              exact h route rl hrl
      | cleanup r now =>
        simp only [App.step] at hstep
        cases har : a[r]? with
        | none => simp [har] at hstep
        | some o =>
          cases o with
          | none => simp [har] at hstep
          | some rl0 =>
            cases hp : rl0.cleanupPending with
            | false => simp [har, RateLimiter.step, hp] at hstep
            | true =>
              simp [har, RateLimiter.step, hp] at hstep
              subst hstep
              by_cases hr : r = route
              · subst hr
                rw [List.getElem?_set_self (App.getElem_lt a r _ har)] at hrl
                simp only [Option.some.injEq] at hrl
                subst hrl
                simp [h r rl0 har, cleanup]
              · rw [List.getElem?_set_ne hr] at hrl
                exact h route rl hrl

theorem App.init_empty :
    ∀ (route : Nat) (rl : RateLimiter), App.init[route]? = some (some rl) → rl.clients = [] := by
  intro route rl h
  have hmem : some rl ∈ App.init := List.getElem?_mem h
  have : rl = rateLimit := by
    simp [App.init, routes] at hmem
    exact hmem
  subst this
  rfl

theorem admitted_enabled (cfg : LimiterConfig) (ip : String) (now : Time) (clients : Clients)
    (hen : cfg.enabled = true) :
    admitted (rateLimitHandler cfg ip now clients)
      = ((effective cfg ip now clients).limiter.Allow now).2 := by
  rw [rateLimitHandler_enabled cfg ip now clients hen]
  cases hv : ((effective cfg ip now clients).limiter.Allow now).2 <;> simp [admitted]

/-- Claim C4, amended: in every reachable state of the application every rate-limited
route has a rate limiter of its own and the other routes have none. With rate limiting
enabled, the limiter of a route holds exactly one live bucket record for every client
key that has been seen on that route and not evicted since, with the time it was last
seen there, and no record for any other key; an admission check for a key on a route
is decided by that route's limiter, against its one record for the key or a new one,
leaves that limiter with exactly one record for the key and leaves the limiters of all
other routes as they were. With rate limiting disabled no limiter holds any record. -/
theorem per_route_single_bucket (cfg : LimiterConfig) (xs : List AppAction) (a : App)
    (hrun : App.run cfg App.init xs = some a) :
    (∀ (route : Nat) (r : Route), routes[route]? = some r →
      (r.rateLimited = true → ∃ rl, a[route]? = some (some rl)) ∧
      (r.rateLimited = false → a[route]? = some none)) ∧
    (cfg.enabled = true →
      ∀ (route : Nat) (rl : RateLimiter) (ip : String), a[route]? = some (some rl) →
        rl.clients.records ip = (if (lastSeenOn route ip xs).isSome then 1 else 0) ∧
        (rl.clients.find ip).map (fun c => c.lastSeen) = lastSeenOn route ip xs) ∧
    (cfg.enabled = true →
      ∀ (route : Nat) (rl : RateLimiter) (ip : String) (now : Time),
        a[route]? = some (some rl) →
        ∃ (a1 : App) (rl1 : RateLimiter),
          a.step cfg (AppAction.request route ip now) = some a1 ∧
          a1[route]? = some (some rl1) ∧
          rl1.clients = (rateLimitHandler cfg ip now rl.clients).1 ∧
          rl1.clients.records ip = 1 ∧
          a.admits cfg route ip now = ((effective cfg ip now rl.clients).limiter.Allow now).2 ∧
          ∀ (other : Nat), other ≠ route → a1[other]? = a[other]?) ∧
    (cfg.enabled = false →
      ∀ (route : Nat) (rl : RateLimiter) (ip : String), a[route]? = some (some rl) →
        rl.clients.records ip = 0) := by
  have hs : a.Single := App.reachable_single cfg a ⟨xs, hrun⟩
  refine ⟨?_, ?_, ?_, ?_⟩
  · intro route r hr
    have hinit := App.init_getElem route r hr
    constructor
    · intro hlim
      rw [hlim] at hinit
      exact App.run_limited cfg xs App.init a hrun route rateLimit hinit
    · intro hlim
      rw [hlim] at hinit
      exact App.run_unlimited cfg xs App.init a hrun route hinit
  · intro hen route rl ip hrl
    have hview := App.run_init_lastSeen cfg hen xs a hrun route rl ip hrl
    refine ⟨?_, hview⟩
    rw [Clients.records_of_single rl.clients (hs route rl hrl) ip, ← hview]
    cases rl.clients.find ip <;> rfl
  · intro hen route rl ip now hrl
    have hlt := App.getElem_lt a route _ hrl
    refine ⟨a.set route (some { rl with clients := (rateLimitHandler cfg ip now rl.clients).1 }),
      { rl with clients := (rateLimitHandler cfg ip now rl.clients).1 }, ?_, ?_, rfl, ?_, ?_, ?_⟩
    · simp [App.step, hrl, RateLimiter.step]
    · exact List.getElem?_set_self hlt
    · exact rateLimitHandler_seen cfg ip now rl.clients hen (hs route rl hrl)
    · simp only [App.admits, hrl, RateLimiter.admits]
      exact admitted_enabled cfg ip now rl.clients hen
    · intro other hne
      exact List.getElem?_set_ne (Ne.symm hne)
  · intro hdis route rl ip hrl
    rw [App.run_disabled_empty cfg hdis xs App.init a App.init_empty hrun route rl hrl]
    rfl

/-- Witness of C4 as amended: the state reached by `evictionHistory`, in which one key
was seen on a route and evicted and another key was seen on another route. -/
theorem per_route_single_bucket_witness :
    App.run defaultLimiterConfig App.init evictionHistory = some evictionState ∧
    ((∀ (route : Nat) (r : Route), routes[route]? = some r →
      (r.rateLimited = true → ∃ rl, evictionState[route]? = some (some rl)) ∧
      (r.rateLimited = false → evictionState[route]? = some none)) ∧
    (defaultLimiterConfig.enabled = true →
      ∀ (route : Nat) (rl : RateLimiter) (ip : String), evictionState[route]? = some (some rl) →
        rl.clients.records ip
          = (if (lastSeenOn route ip evictionHistory).isSome then 1 else 0) ∧
        (rl.clients.find ip).map (fun c => c.lastSeen) = lastSeenOn route ip evictionHistory) ∧
    (defaultLimiterConfig.enabled = true →
      ∀ (route : Nat) (rl : RateLimiter) (ip : String) (now : Time),
        evictionState[route]? = some (some rl) →
        ∃ (a1 : App) (rl1 : RateLimiter),
          evictionState.step defaultLimiterConfig (AppAction.request route ip now) = some a1 ∧
          a1[route]? = some (some rl1) ∧
          rl1.clients = (rateLimitHandler defaultLimiterConfig ip now rl.clients).1 ∧
          rl1.clients.records ip = 1 ∧
          evictionState.admits defaultLimiterConfig route ip now
            = ((effective defaultLimiterConfig ip now rl.clients).limiter.Allow now).2 ∧
          ∀ (other : Nat), other ≠ route → a1[other]? = evictionState[other]?) ∧
    (defaultLimiterConfig.enabled = false →
      ∀ (route : Nat) (rl : RateLimiter) (ip : String), evictionState[route]? = some (some rl) →
        rl.clients.records ip = 0)) :=
  ⟨rfl, per_route_single_bucket defaultLimiterConfig evictionHistory evictionState rfl⟩

/-- The history `evictionHistory` evaluated: the key seen on the first route at
second 1 is evicted by the sweep at second 241 and that route's limiter holds no
record for it; the key seen on the second route at second 250 has exactly one record
there, none on the first route; the application holds one record for it in all. -/
theorem evictionHistory_records :
    lastSeenOn 0 "192.0.2.1" evictionHistory = none ∧
    lastSeenOn 1 "192.0.2.7" evictionHistory = some (250 * second) ∧
    lastSeenOn 0 "192.0.2.7" evictionHistory = none ∧
    (evictionState[0]?).map (fun o => o.map (fun rl => rl.clients.records "192.0.2.1"))
      = some (some 0) ∧
    (evictionState[1]?).map (fun o => o.map (fun rl => rl.clients.records "192.0.2.7"))
      = some (some 1) ∧
    evictionState.records "192.0.2.1" = 0 ∧ evictionState.records "192.0.2.7" = 1 := by
  decide!

theorem lastSeenAfter_not_seen (route : Nat) (ip : String) (xs : List AppAction)
    (h : seenOn route ip xs = false) : lastSeenAfter none route ip xs = none := by
  induction xs with
  | nil => rfl
  | cons x xs ih =>
    simp only [seenOn, List.any_cons, Bool.or_eq_false_iff] at h
    cases x with
    | request r k now =>
      have hne : ¬ (r = route ∧ k = ip) := by
        simpa [AppAction.isRequestOn] using h.1
      simp only [lastSeenAfter, hne, if_false]
      exact ih h.2
    | cleanup r now =>
      have : (if r = route then
          (match (none : Option Time) with
           | some seen => if now - seen > 3 * minute then none else some seen
           | none => none)
         else none) = none := by
        split <;> rfl
      simp only [lastSeenAfter, this]
      exact ih h.2

theorem appVerdicts_same_route (cfg : LimiterConfig) (route : Nat) (ip : String) (now : Time)
    (n : Nat) :
    ∀ (a : App) (rl : RateLimiter), a[route]? = some (some rl) →
      appVerdicts cfg a (List.replicate n (AppAction.request route ip now))
        = (serveSameInstant cfg ip now n rl.clients).2 := by
  induction n with
  | zero => intro a rl _; rfl
  | succ n ih =>
    intro a rl hrl
    have hlt := App.getElem_lt a route _ hrl
    have hstep : a.step cfg (AppAction.request route ip now)
        = some (a.set route (some { rl with clients := (rateLimitHandler cfg ip now rl.clients).1 })) := by
      simp [App.step, hrl, RateLimiter.step]
    simp only [List.replicate_succ, appVerdicts, hstep, serveSameInstant]
    rw [ih _ _ (List.getElem?_set_self hlt)]
    simp [App.admits, hrl, RateLimiter.admits]

/-- Claim C1, counterexample: at the flag defaults (burst 4) the application has just
started, so the key has been seen nowhere; of five admission checks of the key at the
same instant, four on `GET /v1/healthcheck` and the fifth on `GET /v1/movies`, all
five are admitted: the fifth is not denied. -/
theorem fresh_key_cross_route_counterexample :
    defaultLimiterConfig.enabled = true ∧ defaultLimiterConfig.burst = 4 ∧
    App.init.records "192.0.2.1" = 0 ∧
    crossRouteRequests.length = 4 + 1 ∧
    appVerdicts defaultLimiterConfig App.init crossRouteRequests
      = [true, true, true, true, true] := by
  decide!

/-- Claim C1, amended: with rate limiting enabled and a burst `b ≥ 1`, in every state
the application reaches, for every rate-limited route and every client key not seen
before on that route, `b` admission checks of the key on that route at the same
instant are all admitted and the next check on that route at that instant is denied,
whatever requests the key made on other routes. -/
theorem rateLimit_fresh_client_burst_per_route (cfg : LimiterConfig) (xs : List AppAction)
    (a : App) (route : Nat) (r : Route) (ip : String) (now : Time) (b : Nat)
    (hen : cfg.enabled = true) (hb : cfg.burst = (b : Int)) (_hb1 : 1 ≤ b)
    (hrun : App.run cfg App.init xs = some a)
    (hroute : routes[route]? = some r) (hlim : r.rateLimited = true)
    (hfresh : seenOn route ip xs = false) :
    appVerdicts cfg a (List.replicate (b + 1) (AppAction.request route ip now))
      = List.replicate b true ++ [false] := by
  have hinit := App.init_getElem route r hroute
  rw [hlim] at hinit
  obtain ⟨rl, hrl, _⟩ :=
    App.run_lastSeen cfg hen xs App.init a App.init_single hrun route rateLimit ip hinit
  have hview := App.run_init_lastSeen cfg hen xs a hrun route rl ip hrl
  rw [lastSeenOn, lastSeenAfter_not_seen route ip xs hfresh] at hview
  have hnone : rl.clients.find ip = none := by
    cases hf : rl.clients.find ip with
    | none => rfl
    | some c => simp [hf] at hview
  rw [appVerdicts_same_route cfg route ip now (b + 1) a rl hrl]
  have := serveSameInstant_verdicts cfg ip now hen (b + 1) b rl.clients
    (by simp [effective, hnone, NewLimiter, hb])
    (by simp [effective, hnone, NewLimiter])
    (by simp [effective, hnone, NewLimiter, hb])
  simpa using this

/-- Witness of C1 as amended, at the flag defaults: a client that has spent its burst
on `GET /v1/healthcheck` and was never seen on `GET /v1/movies` has four checks
admitted there and the fifth denied. -/
theorem rateLimit_fresh_client_burst_per_route_witness :
    defaultLimiterConfig.enabled = true ∧ defaultLimiterConfig.burst = ((4 : Nat) : Int) ∧
    App.run defaultLimiterConfig App.init healthcheckBurst = some healthcheckBurstState ∧
    routes[1]? = some listMoviesRoute ∧ listMoviesRoute.rateLimited = true ∧
    seenOn 1 "192.0.2.1" healthcheckBurst = false ∧
    appVerdicts defaultLimiterConfig healthcheckBurstState
        (List.replicate (4 + 1) (AppAction.request 1 "192.0.2.1" 0))
      = List.replicate 4 true ++ [false] :=
  ⟨rfl, rfl, rfl, rfl, rfl, rfl,
    rateLimit_fresh_client_burst_per_route defaultLimiterConfig healthcheckBurst
      healthcheckBurstState 1 listMoviesRoute "192.0.2.1" 0 4 rfl rfl (by decide) rfl rfl rfl rfl⟩

end Greenlight
